import Mathlib

/-!
Verification of the tiny-ptz camera controller core (src/camera.rs, src/app.rs).

The Rust code is shallowly embedded:

* `i32` values are modelled as `ℤ`; wherever the Rust code performs `i32`
  arithmetic that can overflow, the result is reduced with `wrap32`
  (two-complement wraparound, the release-build semantics of Rust).
* `f64` values are modelled by `F64`: either a finite rational (kept exactly),
  positive or negative infinity, or NaN.  Arithmetic on finite values is
  performed exactly on `ℚ` and then rounded with `roundQ`, an executable
  round-to-nearest, ties-to-even at 53 significant bits.  The model is exact
  for the whole normal range of IEEE-754 binary64; it does not implement
  subnormal quantisation below 2 ^ (-1022), a region no value computed by this
  program can reach (all inputs are `i32` casts and quotients thereof).
* the external `v4l2-ctl` invocation is modelled by a `Transport` oracle
  mapping (device, control, value) to `none` (success) or `some msg`
  (failure diagnostic, covering both a spawn error and a nonzero exit);
  each modelled operation additionally returns the list of transport
  invocations it performed, so that claims about "no transport call occurs"
  can be stated.
* `Instant` timestamps are modelled as `ℕ`; `duration_since` is truncated
  subtraction, matching its saturating behaviour.
-/

set_option maxRecDepth 10000
set_option exponentiation.threshold 2000

/-- Two-complement wraparound of an unbounded integer into the `i32` range,
the release-build semantics of overflowing `i32` arithmetic in Rust. -/
def wrap32 (n : ℤ) : ℤ := (n + 2 ^ 31) % 2 ^ 32 - 2 ^ 31

/-- Rust `i32::clamp(lo, hi)`: `if self < min { min } else if self > max { max }
else { self }`.  (Rust asserts `lo ≤ hi`; the claims below only apply it with
`lo ≤ hi`, where this total function agrees with it.) -/
def rustClamp (x lo hi : ℤ) : ℤ := if x < lo then lo else if hi < x then hi else x

/-- Fuelled bit-length helper: number of binary digits of `n`, provided the
fuel is at least that number of digits. -/
def natBitsFuel : ℕ → ℕ → ℕ
  | 0, _ => 0
  | fuel + 1, n => if n = 0 then 0 else natBitsFuel fuel (n / 2) + 1

/-- Number of binary digits of `n` (0 for 0); `n` itself is always enough
fuel. -/
def natBits (n : ℕ) : ℕ := natBitsFuel n n

/-- The power `2 ^ k` as a rational, computed through `Nat.pow` (equal to the
`zpow` `(2 : ℚ) ^ k`, see `pow2Q_eq`). -/
def pow2Q (k : ℤ) : ℚ :=
  if 0 ≤ k then ((2 ^ k.toNat : ℕ) : ℚ) else 1 / ((2 ^ (-k).toNat : ℕ) : ℚ)

/-- The binade exponent of a nonzero rational: the unique `e` with
`2 ^ e ≤ |q| < 2 ^ (e + 1)`. -/
def findExp (q : ℚ) : ℤ :=
  let k : ℤ := (natBits q.num.natAbs : ℤ) - (natBits q.den : ℤ)
  if pow2Q k ≤ |q| then k else k - 1

/-- Round a rational to the nearest integer, ties to even. -/
def rnEven (q : ℚ) : ℤ :=
  if q - Int.floor q < 1 / 2 then Int.floor q
  else if (1 : ℚ) / 2 < q - Int.floor q then Int.floor q + 1
  else if Int.floor q % 2 = 0 then Int.floor q else Int.floor q + 1

/-- Round a rational to the nearest IEEE-754 binary64 value (round to nearest,
ties to even, 53-bit significand), expressed as a rational.  Exact on the
whole normal range; no subnormal quantisation (unreachable here, see the
header comment). -/
def roundQ (q : ℚ) : ℚ :=
  if q = 0 then 0
  else
    (if 0 < q then ((rnEven (|q| * pow2Q (52 - findExp q)) : ℤ) : ℚ)
     else -((rnEven (|q| * pow2Q (52 - findExp q)) : ℤ) : ℚ)) * pow2Q (findExp q - 52)

/-- An IEEE-754 binary64 value: NaN, a signed infinity (`true` = negative), or
a finite value represented exactly as a rational. -/
inductive F64 where
  | nan : F64
  | inf : Bool → F64
  | fin : ℚ → F64
deriving DecidableEq

/-- Round an exact rational result into an `F64`, overflowing to infinity
beyond the binary64 range. -/
def mkF64 (q : ℚ) : F64 :=
  if |roundQ q| < pow2Q 1024 then F64.fin (roundQ q) else F64.inf (decide (q < 0))

/-- IEEE-754 binary64 multiplication on the model. -/
def f64mul : F64 → F64 → F64
  | F64.nan, _ => F64.nan
  | _, F64.nan => F64.nan
  | F64.inf s, F64.inf t => F64.inf (xor s t)
  | F64.inf s, F64.fin q => if q = 0 then F64.nan else F64.inf (xor s (decide (q < 0)))
  | F64.fin q, F64.inf t => if q = 0 then F64.nan else F64.inf (xor (decide (q < 0)) t)
  | F64.fin a, F64.fin b => mkF64 (a * b)

/-- IEEE-754 binary64 subtraction on the model. -/
def f64sub : F64 → F64 → F64
  | F64.nan, _ => F64.nan
  | _, F64.nan => F64.nan
  | F64.inf s, F64.inf t => if s = t then F64.nan else F64.inf s
  | F64.inf s, F64.fin _ => F64.inf s
  | F64.fin _, F64.inf t => F64.inf (!t)
  | F64.fin a, F64.fin b => mkF64 (a - b)

/-- IEEE-754 binary64 division on the model (the program only divides finite
values; nonzero / 0 gives infinity, 0 / 0 gives NaN). -/
def f64div : F64 → F64 → F64
  | F64.nan, _ => F64.nan
  | _, F64.nan => F64.nan
  | F64.inf _, F64.inf _ => F64.nan
  | F64.inf s, F64.fin q => F64.inf (xor s (decide (q < 0)))
  | F64.fin _, F64.inf _ => F64.fin 0
  | F64.fin a, F64.fin b =>
      if b = 0 then (if a = 0 then F64.nan else F64.inf (decide (a < 0)))
      else mkF64 (a / b)

/-- Truncation toward zero of a rational. -/
def truncQ (q : ℚ) : ℤ := if 0 ≤ q then Int.floor q else Int.ceil q

/-- The Rust `as i32` cast from `f64`: truncate toward zero, saturate at the
`i32` range, NaN to 0. -/
def f64toI32 : F64 → ℤ
  | F64.nan => 0
  | F64.inf s => if s then -(2 ^ 31) else 2 ^ 31 - 1
  | F64.fin q => max (-(2 ^ 31)) (min (2 ^ 31 - 1) (truncQ q))

/-- The binary64 value of the literal `0.9` occurring in
`get_zoom_adjusted_step` (the double nearest to 9/10). -/
def lit0p9 : ℚ := roundQ (9 / 10)

/-- `ControlConfig` from src/camera.rs: bounds and step of one axis
(`i32` fields modelled as `ℤ`). -/
structure ControlConfig where
  min : ℤ
  max : ℤ
  step : ℤ
deriving DecidableEq

/-- `CameraConfig` from src/camera.rs. -/
structure CameraConfig where
  device : String
  pan : ControlConfig
  tilt : ControlConfig
  zoom : ControlConfig
deriving DecidableEq

/-- `CameraController` from src/camera.rs: per-axis current position and the
last value handed to the transport (`*_prev`). -/
structure CameraController where
  config : CameraConfig
  pan_current : ℤ
  tilt_current : ℤ
  zoom_current : ℤ
  pan_prev : ℤ
  tilt_prev : ℤ
  zoom_prev : ℤ
deriving DecidableEq

/-- `CameraController::new`: no validation of the configuration is performed;
the initial positions are the fixed values pan = 0, tilt = 0, zoom = 50. -/
def CameraController.new (config : CameraConfig) : CameraController :=
  { config := config
    pan_current := 0
    tilt_current := 0
    zoom_current := 50
    pan_prev := 0
    tilt_prev := 0
    zoom_prev := 50 }

/-- `CameraController::get_zoom_adjusted_step`:
`zoom_range = zoom.max - zoom.min` (i32), `zoom_normalized =
(zoom_current - zoom.min) as f64 / zoom_range as f64`,
`zoom_factor = 1.0 - zoom_normalized * 0.9`, result
`(base_step as f64 * zoom_factor) as i32`. -/
def CameraController.get_zoom_adjusted_step (s : CameraController) (base_step : ℤ) : ℤ :=
  let zoom_range := wrap32 (s.config.zoom.max - s.config.zoom.min)
  let zoom_normalized :=
    f64div (F64.fin ((wrap32 (s.zoom_current - s.config.zoom.min) : ℤ) : ℚ))
      (F64.fin ((zoom_range : ℤ) : ℚ))
  let zoom_factor := f64sub (F64.fin 1) (f64mul zoom_normalized (F64.fin lit0p9))
  f64toI32 (f64mul (F64.fin ((base_step : ℤ) : ℚ)) zoom_factor)

/-- `CameraController::get_zoom_adjusted_pan_step`. -/
def CameraController.get_zoom_adjusted_pan_step (s : CameraController) : ℤ :=
  s.get_zoom_adjusted_step s.config.pan.step

/-- `CameraController::get_zoom_adjusted_tilt_step`. -/
def CameraController.get_zoom_adjusted_tilt_step (s : CameraController) : ℤ :=
  s.get_zoom_adjusted_step s.config.tilt.step

/-- Oracle for the external `v4l2-ctl` invocation: device, control name and
value map to `none` on success or `some diagnostic` on failure (covering both
a failed spawn and a nonzero exit status). -/
def Transport : Type := String → String → ℤ → Option String

/-- The error carried by a failed transport call (`bail!` message contents:
control name, attempted value, diagnostic text). -/
structure TransportError where
  control : String
  value : ℤ
  msg : String
deriving DecidableEq

/-- Record of one attempted transport invocation, used to state which calls an
operation performed. -/
structure V4l2Call where
  control : String
  value : ℤ
deriving DecidableEq

/-- `CameraController::send_v4l2_command`: skip (returning `Ok(false)`) when
the value equals the last sent value, otherwise invoke the transport and
return `Ok(true)` or the error.  The second component lists the transport
invocations performed. -/
def CameraController.send_v4l2_command (s : CameraController) (tr : Transport)
    (control_name : String) (value : ℤ) (current_prev_value : ℤ) :
    Except TransportError Bool × List V4l2Call :=
  if current_prev_value = value then (Except.ok false, [])
  else
    match tr s.config.device control_name value with
    | none => (Except.ok true, [⟨control_name, value⟩])
    | some errmsg => (Except.error ⟨control_name, value, errmsg⟩, [⟨control_name, value⟩])

/-- The new pan position computed by `CameraController::set_pan` before any
transport interaction: zoom-adjusted step, direction by the sign of `delta`
(`delta > 0` increases, anything else decreases), then clamp to the pan
bounds. -/
def CameraController.panTarget (s : CameraController) (delta : ℤ) : ℤ :=
  let adjusted_step := s.get_zoom_adjusted_step s.config.pan.step
  let actual_delta := if 0 < delta then adjusted_step else wrap32 (-adjusted_step)
  rustClamp (wrap32 (s.pan_current + actual_delta)) s.config.pan.min s.config.pan.max

/-- The new tilt position computed by `CameraController::set_tilt` (same shape
as `panTarget`). -/
def CameraController.tiltTarget (s : CameraController) (delta : ℤ) : ℤ :=
  let adjusted_step := s.get_zoom_adjusted_step s.config.tilt.step
  let actual_delta := if 0 < delta then adjusted_step else wrap32 (-adjusted_step)
  rustClamp (wrap32 (s.tilt_current + actual_delta)) s.config.tilt.min s.config.tilt.max

/-- The new zoom position computed by `CameraController::set_zoom`: the raw
`delta` is added (zoom is not itself zoom-adjusted) and clamped. -/
def CameraController.zoomTarget (s : CameraController) (delta : ℤ) : ℤ :=
  rustClamp (wrap32 (s.zoom_current + delta)) s.config.zoom.min s.config.zoom.max

/-- `CameraController::set_pan`: apply the clamped move to `pan_current`, then
send if changed; `pan_prev` advances only when the send succeeded.  Returns
the `Result<()>`, the final state, and the transport invocations made. -/
def CameraController.set_pan (s : CameraController) (tr : Transport) (delta : ℤ) :
    Except TransportError Unit × CameraController × List V4l2Call :=
  match CameraController.send_v4l2_command { s with pan_current := s.panTarget delta } tr
      "pan_absolute" (s.panTarget delta) s.pan_prev with
  | (Except.ok true, calls) =>
      (Except.ok (), { s with pan_current := s.panTarget delta, pan_prev := s.panTarget delta },
        calls)
  | (Except.ok false, calls) => (Except.ok (), { s with pan_current := s.panTarget delta }, calls)
  | (Except.error e, calls) => (Except.error e, { s with pan_current := s.panTarget delta }, calls)

/-- `CameraController::set_tilt` (same shape as `set_pan`). -/
def CameraController.set_tilt (s : CameraController) (tr : Transport) (delta : ℤ) :
    Except TransportError Unit × CameraController × List V4l2Call :=
  match CameraController.send_v4l2_command { s with tilt_current := s.tiltTarget delta } tr
      "tilt_absolute" (s.tiltTarget delta) s.tilt_prev with
  | (Except.ok true, calls) =>
      (Except.ok (),
        { s with tilt_current := s.tiltTarget delta, tilt_prev := s.tiltTarget delta }, calls)
  | (Except.ok false, calls) => (Except.ok (), { s with tilt_current := s.tiltTarget delta }, calls)
  | (Except.error e, calls) =>
      (Except.error e, { s with tilt_current := s.tiltTarget delta }, calls)

/-- `CameraController::set_zoom` (raw delta, same send pattern). -/
def CameraController.set_zoom (s : CameraController) (tr : Transport) (delta : ℤ) :
    Except TransportError Unit × CameraController × List V4l2Call :=
  match CameraController.send_v4l2_command { s with zoom_current := s.zoomTarget delta } tr
      "zoom_absolute" (s.zoomTarget delta) s.zoom_prev with
  | (Except.ok true, calls) =>
      (Except.ok (),
        { s with zoom_current := s.zoomTarget delta, zoom_prev := s.zoomTarget delta }, calls)
  | (Except.ok false, calls) => (Except.ok (), { s with zoom_current := s.zoomTarget delta }, calls)
  | (Except.error e, calls) =>
      (Except.error e, { s with zoom_current := s.zoomTarget delta }, calls)

/-- `CameraController::get_pan`. -/
def CameraController.get_pan (s : CameraController) : ℤ := s.pan_current

/-- `CameraController::get_tilt`. -/
def CameraController.get_tilt (s : CameraController) : ℤ := s.tilt_current

/-- `CameraController::get_zoom`. -/
def CameraController.get_zoom (s : CameraController) : ℤ := s.zoom_current

/-! ### Basic arithmetic lemmas -/

theorem wrap32_eq_self {n : ℤ} (h1 : -(2 ^ 31) ≤ n) (h2 : n < 2 ^ 31) : wrap32 n = n := by
  have h32 : ((2:ℤ) ^ 32) = 4294967296 := by norm_num
  have h31 : ((2:ℤ) ^ 31) = 2147483648 := by norm_num
  unfold wrap32
  rw [h32, h31] at *
  omega

theorem rustClamp_mem {x lo hi : ℤ} (h : lo ≤ hi) :
    lo ≤ rustClamp x lo hi ∧ rustClamp x lo hi ≤ hi := by
  unfold rustClamp
  split
  · omega
  · split <;> omega

theorem rustClamp_eq_self {x lo hi : ℤ} (h1 : lo ≤ x) (h2 : x ≤ hi) :
    rustClamp x lo hi = x := by
  unfold rustClamp
  split
  · omega
  · split <;> omega

theorem pow2Q_eq (k : ℤ) : pow2Q k = (2 : ℚ) ^ k := by
  by_cases h : 0 ≤ k
  · simp only [pow2Q, if_pos h]
    push_cast
    rw [← zpow_natCast, Int.toNat_of_nonneg h]
  · simp only [pow2Q, if_neg h]
    push_cast
    rw [← zpow_natCast, Int.toNat_of_nonneg (by omega : (0:ℤ) ≤ -k), one_div, ← zpow_neg,
      neg_neg]

theorem natBitsFuel_zero (fuel : ℕ) : natBitsFuel fuel 0 = 0 := by
  cases fuel <;> simp [natBitsFuel]

theorem natBitsFuel_correct :
    ∀ fuel n : ℕ, n ≤ fuel → n ≠ 0 →
      2 ^ (natBitsFuel fuel n - 1) ≤ n ∧ n < 2 ^ natBitsFuel fuel n := by
  intro fuel
  induction fuel with
  | zero => intro n hn h0; omega
  | succ f ih =>
    intro n hn h0
    rw [natBitsFuel, if_neg h0]
    by_cases hh : n / 2 = 0
    · have : n = 1 := by omega
      subst this
      simp [hh, natBitsFuel_zero]
    · have hrec := ih (n / 2) (by omega) hh
      set b := natBitsFuel f (n / 2) with hb
      have hb1 : 1 ≤ b := by
        by_contra hc
        have : b = 0 := by omega
        rw [this] at hrec
        simp at hrec
        omega
      have h2b : 2 ^ b = 2 * 2 ^ (b - 1) := by
        rw [← pow_succ']
        congr 1
        omega
      have h2b1 : 2 ^ (b + 1) = 2 * 2 ^ b := by rw [← pow_succ']
      constructor
      · have : 2 ^ (b + 1 - 1) = 2 ^ b := by congr 1
        rw [this, h2b]
        omega
      · rw [h2b1]
        omega

theorem natBits_correct {n : ℕ} (h : n ≠ 0) :
    2 ^ (natBits n - 1) ≤ n ∧ n < 2 ^ natBits n :=
  natBitsFuel_correct n n le_rfl h

theorem natBits_pos {n : ℕ} (h : n ≠ 0) : 1 ≤ natBits n := by
  by_contra hc
  have hz : natBits n = 0 := by omega
  have := (natBits_correct h).2
  rw [hz] at this
  omega

theorem findExp_correct {q : ℚ} (h : q ≠ 0) :
    (2 : ℚ) ^ findExp q ≤ |q| ∧ |q| < (2 : ℚ) ^ (findExp q + 1) := by
  have hnum : q.num ≠ 0 := Rat.num_ne_zero.mpr h
  have hn : q.num.natAbs ≠ 0 := Int.natAbs_ne_zero.mpr hnum
  have hd : q.den ≠ 0 := q.den_nz
  set n := q.num.natAbs with hndef
  set d := q.den with hddef
  have hdpos : (0 : ℚ) < (d : ℚ) := by
    have := q.pos
    exact_mod_cast this
  have habs : |q| = (n : ℚ) / (d : ℚ) := by
    have h1 : ((q.num : ℚ)) / ((q.den : ℚ)) = q := Rat.num_div_den q
    have h2 : ((n : ℕ) : ℚ) = |(q.num : ℚ)| := by
      rw [hndef, Nat.cast_natAbs (α := ℚ) q.num, Int.cast_abs]
    rw [← h1, abs_div, abs_of_pos hdpos, ← h2]
  obtain ⟨hnlo, hnup⟩ := natBits_correct hn
  obtain ⟨hdlo, hdup⟩ := natBits_correct hd
  have hbn1 : 1 ≤ natBits n := natBits_pos hn
  have hbd1 : 1 ≤ natBits d := natBits_pos hd
  set bn := natBits n with hbndef
  set bd := natBits d with hbddef
  -- cast the bit bounds to ℚ with integer exponents
  have cnup : (n : ℚ) < (2 : ℚ) ^ (bn : ℤ) := by
    rw [zpow_natCast]
    exact_mod_cast hnup
  have cnlo : (2 : ℚ) ^ ((bn : ℤ) - 1) ≤ (n : ℚ) := by
    have : ((bn : ℤ) - 1) = ((bn - 1 : ℕ) : ℤ) := by omega
    rw [this, zpow_natCast]
    exact_mod_cast hnlo
  have cdup : (d : ℚ) < (2 : ℚ) ^ (bd : ℤ) := by
    rw [zpow_natCast]
    exact_mod_cast hdup
  have cdlo : (2 : ℚ) ^ ((bd : ℤ) - 1) ≤ (d : ℚ) := by
    have : ((bd : ℤ) - 1) = ((bd - 1 : ℕ) : ℤ) := by omega
    rw [this, zpow_natCast]
    exact_mod_cast hdlo
  have habs_lt : |q| < (2 : ℚ) ^ ((bn : ℤ) - (bd : ℤ) + 1) := by
    rw [habs, div_lt_iff hdpos]
    calc (n : ℚ) < (2 : ℚ) ^ (bn : ℤ) := cnup
    _ = (2 : ℚ) ^ ((bn : ℤ) - (bd : ℤ) + 1) * (2 : ℚ) ^ ((bd : ℤ) - 1) := by
          rw [← zpow_add₀ (two_ne_zero)]
          congr 1
          ring
    _ ≤ (2 : ℚ) ^ ((bn : ℤ) - (bd : ℤ) + 1) * (d : ℚ) :=
          mul_le_mul_of_nonneg_left cdlo (le_of_lt (zpow_pos (by norm_num) _))
  have habs_gt : (2 : ℚ) ^ ((bn : ℤ) - (bd : ℤ) - 1) < |q| := by
    rw [habs, lt_div_iff hdpos]
    calc (2 : ℚ) ^ ((bn : ℤ) - (bd : ℤ) - 1) * (d : ℚ)
        < (2 : ℚ) ^ ((bn : ℤ) - (bd : ℤ) - 1) * (2 : ℚ) ^ (bd : ℤ) :=
          mul_lt_mul_of_pos_left cdup (zpow_pos (by norm_num) _)
    _ = (2 : ℚ) ^ ((bn : ℤ) - 1) := by
          rw [← zpow_add₀ (two_ne_zero)]
          congr 1
          ring
    _ ≤ (n : ℚ) := cnlo
  have hfe : findExp q =
      (if (2 : ℚ) ^ ((bn : ℤ) - (bd : ℤ)) ≤ |q| then (bn : ℤ) - (bd : ℤ)
       else (bn : ℤ) - (bd : ℤ) - 1) := by
    simp only [findExp, pow2Q_eq]
  rw [hfe]
  by_cases hle : (2 : ℚ) ^ ((bn : ℤ) - (bd : ℤ)) ≤ |q|
  · rw [if_pos hle]
    exact ⟨hle, habs_lt⟩
  · rw [if_neg hle]
    constructor
    · exact le_of_lt habs_gt
    · have heq : (bn : ℤ) - (bd : ℤ) - 1 + 1 = (bn : ℤ) - (bd : ℤ) := by ring
      rw [heq]
      exact lt_of_not_le hle

/-! ### Rounding lemmas -/

theorem rnEven_intCast (k : ℤ) : rnEven (k : ℚ) = k := by
  unfold rnEven
  rw [Int.floor_intCast]
  norm_num

theorem rnEven_bounds (q : ℚ) : Int.floor q ≤ rnEven q ∧ rnEven q ≤ Int.floor q + 1 := by
  unfold rnEven
  split
  · omega
  · split
    · omega
    · split <;> omega

theorem rnEven_err (q : ℚ) : |((rnEven q : ℤ) : ℚ) - q| ≤ 1 / 2 := by
  have hfl : ((Int.floor q : ℤ) : ℚ) ≤ q := Int.floor_le q
  have hfu : q < ((Int.floor q : ℤ) : ℚ) + 1 := Int.lt_floor_add_one q
  rw [abs_le]
  unfold rnEven
  split
  · constructor <;> push_cast <;> linarith
  · split
    · constructor <;> push_cast <;> linarith
    · split <;> (constructor <;> push_cast <;> linarith)

theorem rnEven_mono {a b : ℚ} (h : a ≤ b) : rnEven a ≤ rnEven b := by
  by_cases hf : Int.floor a = Int.floor b
  · have hfab : a - ((Int.floor a : ℤ) : ℚ) ≤ b - ((Int.floor a : ℤ) : ℚ) := by linarith
    unfold rnEven
    rw [← hf]
    split_ifs <;> first | omega | linarith
  · have hlt : Int.floor a < Int.floor b :=
      lt_of_le_of_ne (Int.floor_le_floor h) hf
    have h1 := rnEven_bounds a
    have h2 := rnEven_bounds b
    omega

theorem roundQ_zero : roundQ 0 = 0 := by
  simp [roundQ]

theorem findExp_neg (q : ℚ) : findExp (-q) = findExp q := by
  simp [findExp, Rat.num_neg_eq_neg_num, Rat.den_neg_eq_den, abs_neg]

theorem roundQ_neg (q : ℚ) : roundQ (-q) = -roundQ q := by
  by_cases h0 : q = 0
  · subst h0
    simp [roundQ]
  · have hn0 : -q ≠ 0 := neg_ne_zero.mpr h0
    rcases lt_or_gt_of_ne h0 with hneg | hpos
    · have hpos' : 0 < -q := by linarith
      rw [roundQ, if_neg hn0, if_pos hpos', roundQ, if_neg h0,
        if_neg (by linarith : ¬(0 < q)), findExp_neg, abs_neg]
      ring
    · have hneg' : ¬(0 < -q) := by linarith
      rw [roundQ, if_neg hn0, if_neg hneg', roundQ, if_neg h0, if_pos hpos,
        findExp_neg, abs_neg]
      ring

theorem roundQ_pos_rep {q : ℚ} (hq : 0 < q) :
    roundQ q = ((rnEven (q * (2 : ℚ) ^ (52 - findExp q)) : ℤ) : ℚ) *
      (2 : ℚ) ^ (findExp q - 52) := by
  rw [roundQ, if_neg (ne_of_gt hq), if_pos hq, abs_of_pos hq, pow2Q_eq, pow2Q_eq]

theorem roundQ_err {q : ℚ} (hq : 0 < q) : |roundQ q - q| ≤ q / 2 ^ 53 := by
  have hfe := findExp_correct (ne_of_gt hq)
  rw [abs_of_pos hq] at hfe
  set e := findExp q with hedef
  set m := q * (2 : ℚ) ^ (52 - e) with hmdef
  have hqm : q = m * (2 : ℚ) ^ (e - 52) := by
    rw [hmdef, mul_assoc, ← zpow_add₀ (two_ne_zero)]
    norm_num
  have herr := rnEven_err m
  have hppos : (0 : ℚ) < (2 : ℚ) ^ (e - 52) := zpow_pos (by norm_num) _
  rw [roundQ_pos_rep hq, ← hedef, ← hmdef]
  calc |((rnEven m : ℤ) : ℚ) * (2 : ℚ) ^ (e - 52) - q|
      = |((rnEven m : ℤ) : ℚ) - m| * (2 : ℚ) ^ (e - 52) := by
        rw [hqm, ← sub_mul, abs_mul, abs_of_pos hppos]
    _ ≤ (1 / 2) * (2 : ℚ) ^ (e - 52) := by
        exact mul_le_mul_of_nonneg_right herr (le_of_lt hppos)
    _ = (2 : ℚ) ^ (e - 53) := by
        have heq : (e - 53 : ℤ) = -1 + (e - 52) := by ring
        rw [heq, zpow_add₀ (two_ne_zero), zpow_neg_one, one_div]
    _ ≤ q / 2 ^ 53 := by
        rw [div_eq_mul_inv, ← zpow_natCast (2 : ℚ) 53, ← zpow_neg,
          (by ring : e - 53 = e + -(53 : ℤ)), zpow_add₀ (two_ne_zero)]
        exact mul_le_mul_of_nonneg_right hfe.1 (le_of_lt (zpow_pos (by norm_num) _))

theorem roundQ_nonneg {q : ℚ} (hq : 0 ≤ q) : 0 ≤ roundQ q := by
  rcases eq_or_lt_of_le hq with h0 | hpos
  · rw [← h0, roundQ_zero]
  · rw [roundQ_pos_rep hpos]
    have hm : (0 : ℚ) ≤ q * (2 : ℚ) ^ (52 - findExp q) :=
      mul_nonneg (le_of_lt hpos) (le_of_lt (zpow_pos (by norm_num) _))
    have hfl : 0 ≤ Int.floor (q * (2 : ℚ) ^ (52 - findExp q)) := Int.floor_nonneg.mpr hm
    have hrn := (rnEven_bounds (q * (2 : ℚ) ^ (52 - findExp q))).1
    exact mul_nonneg (by exact_mod_cast le_trans hfl hrn)
      (le_of_lt (zpow_pos (by norm_num) _))

theorem findExp_mono {x y : ℚ} (hx : 0 < x) (h : x ≤ y) : findExp x ≤ findExp y := by
  have hy : 0 < y := lt_of_lt_of_le hx h
  have hfx := findExp_correct (ne_of_gt hx)
  have hfy := findExp_correct (ne_of_gt hy)
  rw [abs_of_pos hx] at hfx
  rw [abs_of_pos hy] at hfy
  have hlt : (2 : ℚ) ^ findExp x < (2 : ℚ) ^ (findExp y + 1) :=
    lt_of_le_of_lt (le_trans hfx.1 h) hfy.2
  have := (zpow_lt_zpow_iff_right₀ (by norm_num : (1 : ℚ) < 2)).mp hlt
  omega

theorem roundQ_lower {q : ℚ} (hq : 0 < q) : (2 : ℚ) ^ findExp q ≤ roundQ q := by
  have hfe := findExp_correct (ne_of_gt hq)
  rw [abs_of_pos hq] at hfe
  set e := findExp q with hedef
  set m := q * (2 : ℚ) ^ (52 - e) with hmdef
  have hm52 : (2 : ℚ) ^ (52 : ℤ) ≤ m := by
    calc (2 : ℚ) ^ (52 : ℤ) = (2 : ℚ) ^ e * (2 : ℚ) ^ (52 - e) := by
          rw [← zpow_add₀ (two_ne_zero)]
          congr 1
          ring
    _ ≤ q * (2 : ℚ) ^ (52 - e) :=
          mul_le_mul_of_nonneg_right hfe.1 (le_of_lt (zpow_pos (by norm_num) _))
  have hfl : (2 : ℚ) ^ (52 : ℤ) ≤ ((Int.floor m : ℤ) : ℚ) := by
    have h1 : ((2 : ℤ) ^ (52 : ℕ) : ℤ) ≤ Int.floor m := by
      apply Int.le_floor.mpr
      calc (((2 : ℤ) ^ (52 : ℕ) : ℤ) : ℚ) = (2 : ℚ) ^ (52 : ℤ) := by norm_num
      _ ≤ m := hm52
    calc (2 : ℚ) ^ (52 : ℤ) = (((2 : ℤ) ^ (52 : ℕ) : ℤ) : ℚ) := by norm_num
    _ ≤ ((Int.floor m : ℤ) : ℚ) := by exact_mod_cast h1
  have hrn := (rnEven_bounds m).1
  rw [roundQ_pos_rep hq, ← hedef, ← hmdef]
  calc (2 : ℚ) ^ e = (2 : ℚ) ^ (52 : ℤ) * (2 : ℚ) ^ (e - 52) := by
        rw [← zpow_add₀ (two_ne_zero)]
        congr 1
        ring
  _ ≤ ((rnEven m : ℤ) : ℚ) * (2 : ℚ) ^ (e - 52) := by
        apply mul_le_mul_of_nonneg_right _ (le_of_lt (zpow_pos (by norm_num) _))
        calc (2 : ℚ) ^ (52 : ℤ) ≤ ((Int.floor m : ℤ) : ℚ) := hfl
        _ ≤ ((rnEven m : ℤ) : ℚ) := by exact_mod_cast hrn

theorem roundQ_upper {q : ℚ} (hq : 0 < q) : roundQ q ≤ (2 : ℚ) ^ (findExp q + 1) := by
  have hfe := findExp_correct (ne_of_gt hq)
  rw [abs_of_pos hq] at hfe
  set e := findExp q with hedef
  set m := q * (2 : ℚ) ^ (52 - e) with hmdef
  have hm53 : m < (2 : ℚ) ^ (53 : ℤ) := by
    calc m = q * (2 : ℚ) ^ (52 - e) := hmdef
    _ < (2 : ℚ) ^ (e + 1) * (2 : ℚ) ^ (52 - e) :=
          mul_lt_mul_of_pos_right hfe.2 (zpow_pos (by norm_num) _)
    _ = (2 : ℚ) ^ (53 : ℤ) := by
          rw [← zpow_add₀ (two_ne_zero)]
          congr 1
          ring
  have hfl : Int.floor m < ((2 : ℤ) ^ (53 : ℕ) : ℤ) := by
    apply Int.floor_lt.mpr
    calc m < (2 : ℚ) ^ (53 : ℤ) := hm53
    _ = (((2 : ℤ) ^ (53 : ℕ) : ℤ) : ℚ) := by norm_num
  have hrn := (rnEven_bounds m).2
  rw [roundQ_pos_rep hq, ← hedef, ← hmdef]
  calc ((rnEven m : ℤ) : ℚ) * (2 : ℚ) ^ (e - 52)
      ≤ (((2 : ℤ) ^ (53 : ℕ) : ℤ) : ℚ) * (2 : ℚ) ^ (e - 52) := by
        apply mul_le_mul_of_nonneg_right _ (le_of_lt (zpow_pos (by norm_num) _))
        exact_mod_cast le_trans hrn (by omega : Int.floor m + 1 ≤ (2 : ℤ) ^ (53 : ℕ))
  _ = (2 : ℚ) ^ (e + 1) := by
        have hc : (((2 : ℤ) ^ (53 : ℕ) : ℤ) : ℚ) = (2 : ℚ) ^ (53 : ℤ) := by norm_num
        rw [hc, ← zpow_add₀ (two_ne_zero)]
        congr 1
        ring

theorem roundQ_mono {x y : ℚ} (hx : 0 ≤ x) (hxy : x ≤ y) : roundQ x ≤ roundQ y := by
  rcases eq_or_lt_of_le hx with h0 | hpos
  · rw [← h0, roundQ_zero]
    exact roundQ_nonneg (le_trans hx hxy)
  · have hy : 0 < y := lt_of_lt_of_le hpos hxy
    have he := findExp_mono hpos hxy
    rcases eq_or_lt_of_le he with heq | hlt
    · rw [roundQ_pos_rep hpos, roundQ_pos_rep hy, ← heq]
      apply mul_le_mul_of_nonneg_right _ (le_of_lt (zpow_pos (by norm_num) _))
      exact_mod_cast rnEven_mono
        (mul_le_mul_of_nonneg_right hxy (le_of_lt (zpow_pos (by norm_num) _)))
    · calc roundQ x ≤ (2 : ℚ) ^ (findExp x + 1) := roundQ_upper hpos
      _ ≤ (2 : ℚ) ^ findExp y := zpow_le_zpow_right₀ (by norm_num) (by omega)
      _ ≤ roundQ y := roundQ_lower hy

theorem roundQ_intCast_pos {k : ℤ} (h0 : 0 < k) (hk : k < 2 ^ 53) : roundQ (k : ℚ) = k := by
  have hq : (0 : ℚ) < (k : ℚ) := by exact_mod_cast h0
  have hfe := findExp_correct (ne_of_gt hq)
  rw [abs_of_pos hq] at hfe
  set e := findExp (k : ℚ) with hedef
  have he0 : 0 ≤ e := by
    by_contra hc
    push_neg at hc
    have h2 : (2 : ℚ) ^ (e + 1) ≤ (2 : ℚ) ^ (0 : ℤ) :=
      zpow_le_zpow_right₀ (by norm_num) (by omega)
    rw [zpow_zero] at h2
    have h3 : (1 : ℚ) ≤ (k : ℚ) := by exact_mod_cast h0
    linarith [hfe.2]
  have he52 : e ≤ 52 := by
    by_contra hc
    push_neg at hc
    have h1 : (2 : ℚ) ^ (53 : ℤ) ≤ (2 : ℚ) ^ e :=
      zpow_le_zpow_right₀ (by norm_num) (by omega)
    have h3 : (k : ℚ) < (2 : ℚ) ^ (53 : ℤ) := by
      have hcast : ((2 ^ 53 : ℤ) : ℚ) = (2 : ℚ) ^ (53 : ℤ) := by norm_num
      rw [← hcast]
      exact_mod_cast hk
    linarith [hfe.1]
  have hm : (k : ℚ) * (2 : ℚ) ^ (52 - e) = ((k * 2 ^ (52 - e).toNat : ℤ) : ℚ) := by
    push_cast
    congr 1
    rw [← zpow_natCast (2 : ℚ) (52 - e).toNat,
      Int.toNat_of_nonneg (by omega : (0 : ℤ) ≤ 52 - e)]
  rw [roundQ_pos_rep hq, ← hedef, hm, rnEven_intCast]
  push_cast
  rw [mul_assoc, ← zpow_natCast (2 : ℚ) (52 - e).toNat,
    Int.toNat_of_nonneg (by omega : (0 : ℤ) ≤ 52 - e), ← zpow_add₀ (two_ne_zero)]
  have hze : (52 - e) + (e - 52) = 0 := by ring
  rw [hze, zpow_zero, mul_one]

theorem roundQ_intCast {k : ℤ} (hk : |k| < 2 ^ 53) : roundQ (k : ℚ) = k := by
  rw [abs_lt] at hk
  rcases lt_trichotomy k 0 with hneg | h0 | hpos
  · have hrec : roundQ ((-k : ℤ) : ℚ) = ((-k : ℤ) : ℚ) := by
      rw [roundQ_intCast_pos (by omega) (by omega)]
    have hcast : ((k : ℤ) : ℚ) = -(((-k : ℤ) : ℤ) : ℚ) := by push_cast; ring
    rw [hcast, roundQ_neg, hrec]
  · subst h0
    push_cast
    exact roundQ_zero
  · exact roundQ_intCast_pos hpos (by omega)

theorem roundQ_one : roundQ 1 = 1 := by
  have := roundQ_intCast (k := 1) (by norm_num)
  push_cast at this
  exact this

theorem roundQ_abs_le (q : ℚ) : |roundQ q| ≤ 2 * |q| := by
  rcases lt_trichotomy q 0 with hneg | h0 | hpos
  · have hpos' : 0 < -q := by linarith
    have h1 : |roundQ (-q)| ≤ 2 * |(-q)| := by
      rw [abs_of_nonneg (roundQ_nonneg (le_of_lt hpos')), abs_of_pos hpos']
      calc roundQ (-q) ≤ (2 : ℚ) ^ (findExp (-q) + 1) := roundQ_upper hpos'
      _ = 2 * (2 : ℚ) ^ findExp (-q) := by
            rw [zpow_add₀ (two_ne_zero), zpow_one]
            ring
      _ ≤ 2 * -q := by
            have := (findExp_correct (ne_of_gt hpos')).1
            rw [abs_of_pos hpos'] at this
            linarith
    rw [roundQ_neg, abs_neg, abs_neg] at h1
    exact h1
  · subst h0
    rw [roundQ_zero]
    norm_num
  · rw [abs_of_nonneg (roundQ_nonneg (le_of_lt hpos)), abs_of_pos hpos]
    calc roundQ q ≤ (2 : ℚ) ^ (findExp q + 1) := roundQ_upper hpos
    _ = 2 * (2 : ℚ) ^ findExp q := by
          rw [zpow_add₀ (two_ne_zero), zpow_one]
          ring
    _ ≤ 2 * q := by
          have := (findExp_correct (ne_of_gt hpos)).1
          rw [abs_of_pos hpos] at this
          linarith

theorem mkF64_fin {q : ℚ} (h : |q| ≤ 2 ^ 64) : mkF64 q = F64.fin (roundQ q) := by
  rw [mkF64, if_pos]
  rw [pow2Q_eq]
  calc |roundQ q| ≤ 2 * |q| := roundQ_abs_le q
  _ ≤ 2 * 2 ^ 64 := by linarith
  _ < (2 : ℚ) ^ (1024 : ℤ) := by
        have hc : ((2 : ℚ) ^ (1024 : ℤ)) = 2 ^ (1024 : ℕ) := by
          rw [← zpow_natCast]
          norm_num
        rw [hc]
        norm_num

theorem truncQ_of_nonneg {q : ℚ} (h : 0 ≤ q) : truncQ q = Int.floor q := if_pos h

theorem truncQ_mono {x y : ℚ} (h : x ≤ y) : truncQ x ≤ truncQ y := by
  unfold truncQ
  split
  · rw [if_pos (by linarith)]
    exact Int.floor_le_floor h
  · split
    · calc Int.ceil x ≤ 0 := Int.ceil_le.mpr (by push_cast; linarith)
      _ ≤ Int.floor y := Int.floor_nonneg.mpr (by assumption)
    · exact Int.ceil_le_ceil h

/-! ### The app / dispatcher layer (src/app.rs) -/

/-- Key codes distinguished by `App::update` (everything else is `other`). -/
inductive KeyCode where
  | left : KeyCode
  | right : KeyCode
  | up : KeyCode
  | down : KeyCode
  | charV : KeyCode
  | charQ : KeyCode
  | other : KeyCode
deriving DecidableEq

/-- The modifier set of a key event as `App::update` distinguishes it:
`shift` means the set is exactly `KeyModifiers::SHIFT`. -/
inductive KeyModifiers where
  | shift : KeyModifiers
  | plain : KeyModifiers
deriving DecidableEq

/-- `crossterm::event::KeyEvent`, reduced to the data `App::update` reads. -/
structure KeyEvent where
  code : KeyCode
  modifiers : KeyModifiers
deriving DecidableEq

/-- `InputEvent` from src/app.rs. -/
inductive InputEvent where
  | key : KeyEvent → InputEvent
  | tick : InputEvent
deriving DecidableEq

/-- Oracle for the outcome of the background `ffplay` spawn attempted by
`toggle_video_feed`: spawn error with message, nonzero exit, success with a
parsed pid, or success without a parsable pid. -/
inductive SpawnResult where
  | err : String → SpawnResult
  | failed : SpawnResult
  | okPid : ℕ → SpawnResult
  | okNoPid : SpawnResult
deriving DecidableEq

/-- `App` from src/app.rs (`Instant` and `Duration` as `ℕ`). -/
structure App where
  camera_controller : CameraController
  should_quit : Bool
  status_message : String
  last_command_time : ℕ
  command_interval : ℕ
  video_feed_pid : Option ℕ
deriving DecidableEq

/-- `App::new`: the construction-time `Instant::now()` is the parameter
`now`; the command interval is fixed at 100 ms. -/
def App.new (config : CameraConfig) (now : ℕ) : App :=
  { camera_controller := CameraController.new config
    should_quit := false
    status_message :=
      "Press 'q' to quit. Arrow keys for Pan/Tilt. Shift+Arrows for Zoom. 'v' for video feed."
    last_command_time := now
    command_interval := 100
    video_feed_pid := none }

/-- `App::toggle_video_feed`: kill the feed if one is recorded, otherwise
spawn one (outcome supplied by the `SpawnResult` oracle). -/
def App.toggle_video_feed (a : App) (sp : SpawnResult) : App :=
  match a.video_feed_pid with
  | some _ => { a with video_feed_pid := none, status_message := "Video feed stopped." }
  | none =>
    match sp with
    | SpawnResult.err e => { a with status_message := "Failed to start video feed: " ++ e }
    | SpawnResult.failed => { a with status_message := "Failed to start video feed." }
    | SpawnResult.okPid pid =>
        { a with video_feed_pid := some pid
                 status_message :=
                   "Video feed started (PID: " ++ toString pid ++ "). Press 'v' again to stop." }
    | SpawnResult.okNoPid =>
        { a with status_message :=
                   "Video feed started in background. Press 'v' again to stop." }

/-- The display text of the `anyhow` error produced by `send_v4l2_command`
(`bail!` with control name, attempted value and transport diagnostic). -/
def v4l2ErrMsg (e : TransportError) : String :=
  "Error setting " ++ e.control ++ " to " ++ toString e.value ++ ": " ++ e.msg

/-- `App::update`: rate gate (`duration_since` is truncated subtraction),
then dispatch on key code and modifiers exactly as the Rust `match`, then
status-message update and `last_command_time = now`. -/
def App.update (a : App) (ev : InputEvent) (now : ℕ) (tr : Transport) (sp : SpawnResult) :
    App :=
  match ev with
  | InputEvent.tick => a
  | InputEvent.key k =>
    if a.command_interval ≤ now - a.last_command_time then
      let step :=
        match k.code, k.modifiers with
        | KeyCode.left, _ =>
            let r := a.camera_controller.set_pan tr
              (wrap32 (-a.camera_controller.config.pan.step))
            (r.1, { a with camera_controller := r.2.1 })
        | KeyCode.right, _ =>
            let r := a.camera_controller.set_pan tr a.camera_controller.config.pan.step
            (r.1, { a with camera_controller := r.2.1 })
        | KeyCode.up, KeyModifiers.shift =>
            let r := a.camera_controller.set_zoom tr a.camera_controller.config.zoom.step
            (r.1, { a with camera_controller := r.2.1 })
        | KeyCode.down, KeyModifiers.shift =>
            let r := a.camera_controller.set_zoom tr
              (wrap32 (-a.camera_controller.config.zoom.step))
            (r.1, { a with camera_controller := r.2.1 })
        | KeyCode.up, _ =>
            let r := a.camera_controller.set_tilt tr a.camera_controller.config.tilt.step
            (r.1, { a with camera_controller := r.2.1 })
        | KeyCode.down, _ =>
            let r := a.camera_controller.set_tilt tr
              (wrap32 (-a.camera_controller.config.tilt.step))
            (r.1, { a with camera_controller := r.2.1 })
        | KeyCode.charV, _ => (Except.ok (), a.toggle_video_feed sp)
        | KeyCode.charQ, _ => (Except.ok (), { a with should_quit := true })
        | KeyCode.other, _ => (Except.ok (), a)
      let a3 :=
        match step.1 with
        | Except.ok _ =>
            if k.code ≠ KeyCode.charV then { step.2 with status_message := "Command sent." }
            else step.2
        | Except.error e => { step.2 with status_message := "Error: " ++ v4l2ErrMsg e }
      { a3 with last_command_time := now }
    else a

/-- `App::get_pan`. -/
def App.get_pan (a : App) : ℤ := a.camera_controller.get_pan

/-- `App::get_tilt`. -/
def App.get_tilt (a : App) : ℤ := a.camera_controller.get_tilt

/-- `App::get_zoom`. -/
def App.get_zoom (a : App) : ℤ := a.camera_controller.get_zoom

/-- `App::cleanup`: kill any recorded video feed process and clear the pid. -/
def App.cleanup (a : App) : App := { a with video_feed_pid := none }

/-! ### Operation sequences for the clamping invariant -/

/-- One camera mutation: a `set_pan`, `set_tilt` or `set_zoom` call with its
raw `delta` argument. -/
inductive CamOp where
  | movePan : ℤ → CamOp
  | moveTilt : ℤ → CamOp
  | moveZoom : ℤ → CamOp
deriving DecidableEq

/-- Apply one operation (with its transport oracle), keeping the state. -/
def applyOp (s : CameraController) (tr : Transport) (op : CamOp) : CameraController :=
  match op with
  | CamOp.movePan d => (s.set_pan tr d).2.1
  | CamOp.moveTilt d => (s.set_tilt tr d).2.1
  | CamOp.moveZoom d => (s.set_zoom tr d).2.1

/-- Run a sequence of operations, each with its own transport oracle. -/
def runOps (s : CameraController) : List (CamOp × Transport) → CameraController
  | [] => s
  | p :: rest => runOps (applyOp s p.2 p.1) rest

/-- All three axis positions lie within their configured inclusive bounds. -/
def inBounds (s : CameraController) : Prop :=
  s.config.pan.min ≤ s.pan_current ∧ s.pan_current ≤ s.config.pan.max ∧
  s.config.tilt.min ≤ s.tilt_current ∧ s.tilt_current ≤ s.config.tilt.max ∧
  s.config.zoom.min ≤ s.zoom_current ∧ s.zoom_current ≤ s.config.zoom.max

instance (s : CameraController) : Decidable (inBounds s) := by
  unfold inBounds
  infer_instance

/-! ### Structural lemmas about the set operations -/

theorem set_pan_state (s : CameraController) (tr : Transport) (d : ℤ) :
    (s.set_pan tr d).2.1 = { s with pan_current := s.panTarget d } ∨
    (s.set_pan tr d).2.1 =
      { s with pan_current := s.panTarget d, pan_prev := s.panTarget d } := by
  rcases hsend : CameraController.send_v4l2_command { s with pan_current := s.panTarget d } tr
      "pan_absolute" (s.panTarget d) s.pan_prev with ⟨res, calls⟩
  rcases res with e | b
  · left
    simp [CameraController.set_pan, hsend]
  · cases b
    · left
      simp [CameraController.set_pan, hsend]
    · right
      simp [CameraController.set_pan, hsend]

theorem set_tilt_state (s : CameraController) (tr : Transport) (d : ℤ) :
    (s.set_tilt tr d).2.1 = { s with tilt_current := s.tiltTarget d } ∨
    (s.set_tilt tr d).2.1 =
      { s with tilt_current := s.tiltTarget d, tilt_prev := s.tiltTarget d } := by
  rcases hsend : CameraController.send_v4l2_command { s with tilt_current := s.tiltTarget d } tr
      "tilt_absolute" (s.tiltTarget d) s.tilt_prev with ⟨res, calls⟩
  rcases res with e | b
  · left
    simp [CameraController.set_tilt, hsend]
  · cases b
    · left
      simp [CameraController.set_tilt, hsend]
    · right
      simp [CameraController.set_tilt, hsend]

theorem set_zoom_state (s : CameraController) (tr : Transport) (d : ℤ) :
    (s.set_zoom tr d).2.1 = { s with zoom_current := s.zoomTarget d } ∨
    (s.set_zoom tr d).2.1 =
      { s with zoom_current := s.zoomTarget d, zoom_prev := s.zoomTarget d } := by
  rcases hsend : CameraController.send_v4l2_command { s with zoom_current := s.zoomTarget d } tr
      "zoom_absolute" (s.zoomTarget d) s.zoom_prev with ⟨res, calls⟩
  rcases res with e | b
  · left
    simp [CameraController.set_zoom, hsend]
  · cases b
    · left
      simp [CameraController.set_zoom, hsend]
    · right
      simp [CameraController.set_zoom, hsend]

theorem set_pan_fields (s : CameraController) (tr : Transport) (d : ℤ) :
    (s.set_pan tr d).2.1.config = s.config ∧
    (s.set_pan tr d).2.1.pan_current = s.panTarget d ∧
    (s.set_pan tr d).2.1.tilt_current = s.tilt_current ∧
    (s.set_pan tr d).2.1.zoom_current = s.zoom_current ∧
    (s.set_pan tr d).2.1.tilt_prev = s.tilt_prev ∧
    (s.set_pan tr d).2.1.zoom_prev = s.zoom_prev := by
  rcases set_pan_state s tr d with h | h <;> rw [h] <;>
    exact ⟨rfl, rfl, rfl, rfl, rfl, rfl⟩

theorem set_tilt_fields (s : CameraController) (tr : Transport) (d : ℤ) :
    (s.set_tilt tr d).2.1.config = s.config ∧
    (s.set_tilt tr d).2.1.tilt_current = s.tiltTarget d ∧
    (s.set_tilt tr d).2.1.pan_current = s.pan_current ∧
    (s.set_tilt tr d).2.1.zoom_current = s.zoom_current ∧
    (s.set_tilt tr d).2.1.pan_prev = s.pan_prev ∧
    (s.set_tilt tr d).2.1.zoom_prev = s.zoom_prev := by
  rcases set_tilt_state s tr d with h | h <;> rw [h] <;>
    exact ⟨rfl, rfl, rfl, rfl, rfl, rfl⟩

theorem set_zoom_fields (s : CameraController) (tr : Transport) (d : ℤ) :
    (s.set_zoom tr d).2.1.config = s.config ∧
    (s.set_zoom tr d).2.1.zoom_current = s.zoomTarget d ∧
    (s.set_zoom tr d).2.1.pan_current = s.pan_current ∧
    (s.set_zoom tr d).2.1.tilt_current = s.tilt_current ∧
    (s.set_zoom tr d).2.1.pan_prev = s.pan_prev ∧
    (s.set_zoom tr d).2.1.tilt_prev = s.tilt_prev := by
  rcases set_zoom_state s tr d with h | h <;> rw [h] <;>
    exact ⟨rfl, rfl, rfl, rfl, rfl, rfl⟩

theorem panTarget_mem {s : CameraController} (h : s.config.pan.min ≤ s.config.pan.max)
    (d : ℤ) : s.config.pan.min ≤ s.panTarget d ∧ s.panTarget d ≤ s.config.pan.max :=
  rustClamp_mem h

theorem tiltTarget_mem {s : CameraController} (h : s.config.tilt.min ≤ s.config.tilt.max)
    (d : ℤ) : s.config.tilt.min ≤ s.tiltTarget d ∧ s.tiltTarget d ≤ s.config.tilt.max :=
  rustClamp_mem h

theorem zoomTarget_mem {s : CameraController} (h : s.config.zoom.min ≤ s.config.zoom.max)
    (d : ℤ) : s.config.zoom.min ≤ s.zoomTarget d ∧ s.zoomTarget d ≤ s.config.zoom.max :=
  rustClamp_mem h

/-! ### Concrete fixtures -/

/-- A transport oracle on which every call succeeds. -/
def trOkAll : Transport := fun _ _ _ => none

/-- A transport oracle on which every call fails. -/
def trFailAll : Transport := fun _ _ _ => some "Cannot open device"

/-- A representative valid configuration: pan and tilt around 0, zoom 0..100
(the concrete scenario of the specification). -/
def cfgStd : CameraConfig :=
  ⟨"/dev/video0", ⟨-100, 100, 10⟩, ⟨-90, 90, 10⟩, ⟨0, 100, 5⟩⟩

/-- A configuration satisfying the collaborator contract (`min ≤ max`,
`step > 0` per axis, nonzero zoom range) whose pan bounds exclude the fixed
initial pan position 0. -/
def cfgBadPan : CameraConfig :=
  ⟨"/dev/video0", ⟨10, 20, 1⟩, ⟨-90, 90, 10⟩, ⟨0, 100, 5⟩⟩

/-- A configuration violating every construction-time check of the
specification: `min > max`, `step ≤ 0` on pan and tilt, and a zero zoom
range. -/
def cfgInvalid : CameraConfig := ⟨"cam", ⟨5, -5, 0⟩, ⟨3, 1, -2⟩, ⟨7, 7, 1⟩⟩

/-! ### Claim C6 -/

/-- C6, counterexample: `CameraController::new` performs no validation.  The
configuration `cfgInvalid` violates every construction-time check of the claim
(an axis with `min > max`, axes with `step ≤ 0`, zero zoom range), yet
construction succeeds and yields the ordinary initial state, where the claim
requires that construction fail. -/
theorem C6_counterexample :
    cfgInvalid.pan.min > cfgInvalid.pan.max ∧ cfgInvalid.pan.step ≤ 0 ∧
    cfgInvalid.tilt.min > cfgInvalid.tilt.max ∧ cfgInvalid.tilt.step ≤ 0 ∧
    cfgInvalid.zoom.max - cfgInvalid.zoom.min = 0 ∧
    CameraController.new cfgInvalid =
      { config := cfgInvalid, pan_current := 0, tilt_current := 0, zoom_current := 50,
        pan_prev := 0, tilt_prev := 0, zoom_prev := 50 } :=
  ⟨by decide, by decide, by decide, by decide, by decide, rfl⟩

/-- C6, amended: construction never fails.  `CameraController::new` performs
no validation whatsoever: for every configuration, valid or not, it succeeds
and returns the state with pan = 0, tilt = 0, zoom = 50 and the `prev` fields
equal to the same values. -/
theorem C6_theorem (cfg : CameraConfig) :
    CameraController.new cfg =
      { config := cfg, pan_current := 0, tilt_current := 0, zoom_current := 50,
        pan_prev := 0, tilt_prev := 0, zoom_prev := 50 } := rfl

/-! ### Claim C1 -/

/-- C1, counterexample: for the contract-conforming configuration `cfgBadPan`
(`min ≤ max`, `step > 0` on every axis, positive zoom range) the freshly
constructed state already violates the pan bounds: `pan_current = 0` but
`pan.min = 10`. -/
theorem C1_counterexample :
    cfgBadPan.pan.min ≤ cfgBadPan.pan.max ∧ 0 < cfgBadPan.pan.step ∧
    cfgBadPan.tilt.min ≤ cfgBadPan.tilt.max ∧ 0 < cfgBadPan.tilt.step ∧
    cfgBadPan.zoom.min < cfgBadPan.zoom.max ∧ 0 < cfgBadPan.zoom.step ∧
    (CameraController.new cfgBadPan).pan_current < cfgBadPan.pan.min := by
  refine ⟨by decide, by decide, by decide, by decide, by decide, by decide, by decide⟩

/-- C1, amended: if the configured bounds contain the fixed initial positions
(0 for pan and tilt, 50 for zoom), then after any sequence of
`set_pan`/`set_tilt`/`set_zoom` calls (each with an arbitrary delta and an
arbitrary transport outcome) every axis position lies within its inclusive
bounds — including immediately after construction (the empty sequence). -/
theorem C1_theorem (cfg : CameraConfig)
    (hpan0 : cfg.pan.min ≤ 0) (hpan1 : 0 ≤ cfg.pan.max)
    (htilt0 : cfg.tilt.min ≤ 0) (htilt1 : 0 ≤ cfg.tilt.max)
    (hzoom0 : cfg.zoom.min ≤ 50) (hzoom1 : 50 ≤ cfg.zoom.max)
    (ops : List (CamOp × Transport)) :
    inBounds (runOps (CameraController.new cfg) ops) := by
  suffices h : ∀ ops : List (CamOp × Transport), ∀ s : CameraController,
      inBounds s → inBounds (runOps s ops) by
    exact h ops (CameraController.new cfg)
      ⟨hpan0, hpan1, htilt0, htilt1, hzoom0, hzoom1⟩
  intro ops
  induction ops with
  | nil => intro s hs; exact hs
  | cons p rest ih =>
    intro s hs
    apply ih
    obtain ⟨hs1, hs2, hs3, hs4, hs5, hs6⟩ := hs
    rcases p with ⟨op, tr⟩
    rcases op with d | d | d
    · obtain ⟨h1, h2, h3, h4, _, _⟩ := set_pan_fields s tr d
      have hmem := panTarget_mem (le_trans hs1 hs2) d
      show inBounds ((s.set_pan tr d).2.1)
      unfold inBounds
      rw [h1, h2, h3, h4]
      exact ⟨hmem.1, hmem.2, hs3, hs4, hs5, hs6⟩
    · obtain ⟨h1, h2, h3, h4, _, _⟩ := set_tilt_fields s tr d
      have hmem := tiltTarget_mem (le_trans hs3 hs4) d
      show inBounds ((s.set_tilt tr d).2.1)
      unfold inBounds
      rw [h1, h2, h3, h4]
      exact ⟨hs1, hs2, hmem.1, hmem.2, hs5, hs6⟩
    · obtain ⟨h1, h2, h3, h4, _, _⟩ := set_zoom_fields s tr d
      have hmem := zoomTarget_mem (le_trans hs5 hs6) d
      show inBounds ((s.set_zoom tr d).2.1)
      unfold inBounds
      rw [h1, h2, h3, h4]
      exact ⟨hs1, hs2, hs3, hs4, hmem.1, hmem.2⟩

/-- C1, witness: the amended theorem applied to the standard configuration and
a concrete three-operation run (with both succeeding and failing transports). -/
theorem C1_witness :
    (cfgStd.pan.min ≤ 0 ∧ 0 ≤ cfgStd.pan.max ∧ cfgStd.tilt.min ≤ 0 ∧ 0 ≤ cfgStd.tilt.max ∧
      cfgStd.zoom.min ≤ 50 ∧ 50 ≤ cfgStd.zoom.max) ∧
    inBounds (runOps (CameraController.new cfgStd)
      [(CamOp.movePan 10, trOkAll), (CamOp.moveZoom 5, trFailAll),
       (CamOp.moveTilt (-10), trOkAll)]) :=
  ⟨⟨by decide, by decide, by decide, by decide, by decide, by decide⟩,
    C1_theorem cfgStd (by decide) (by decide) (by decide) (by decide) (by decide) (by decide) _⟩

/-! ### Claim C9 -/

/-- C9: each axis operation touches only its own axis.  For every state,
transport oracle and delta, `set_pan` leaves `tilt_current`, `tilt_prev`,
`zoom_current`, `zoom_prev` and the configuration unchanged, and symmetrically
for `set_tilt` and `set_zoom`. -/
theorem C9_theorem (s : CameraController) (tr : Transport) (d : ℤ) :
    ((s.set_pan tr d).2.1.config = s.config ∧
     (s.set_pan tr d).2.1.tilt_current = s.tilt_current ∧
     (s.set_pan tr d).2.1.tilt_prev = s.tilt_prev ∧
     (s.set_pan tr d).2.1.zoom_current = s.zoom_current ∧
     (s.set_pan tr d).2.1.zoom_prev = s.zoom_prev) ∧
    ((s.set_tilt tr d).2.1.config = s.config ∧
     (s.set_tilt tr d).2.1.pan_current = s.pan_current ∧
     (s.set_tilt tr d).2.1.pan_prev = s.pan_prev ∧
     (s.set_tilt tr d).2.1.zoom_current = s.zoom_current ∧
     (s.set_tilt tr d).2.1.zoom_prev = s.zoom_prev) ∧
    ((s.set_zoom tr d).2.1.config = s.config ∧
     (s.set_zoom tr d).2.1.pan_current = s.pan_current ∧
     (s.set_zoom tr d).2.1.pan_prev = s.pan_prev ∧
     (s.set_zoom tr d).2.1.tilt_current = s.tilt_current ∧
     (s.set_zoom tr d).2.1.tilt_prev = s.tilt_prev) := by
  refine ⟨?_, ?_, ?_⟩
  · rcases set_pan_state s tr d with h | h <;> rw [h] <;> exact ⟨rfl, rfl, rfl, rfl, rfl⟩
  · rcases set_tilt_state s tr d with h | h <;> rw [h] <;> exact ⟨rfl, rfl, rfl, rfl, rfl⟩
  · rcases set_zoom_state s tr d with h | h <;> rw [h] <;> exact ⟨rfl, rfl, rfl, rfl, rfl⟩

/-! ### Claim C10 -/

/-- C10: a delta of exactly 0 is treated as a decrease.  `set_pan s tr 0`
behaves identically to `set_pan` with any negative delta (here −1), and the
resulting position moves by minus the zoom-adjusted pan step (then clamps);
symmetrically for `set_tilt`. -/
theorem C10_theorem (s : CameraController) (tr : Transport) :
    s.set_pan tr 0 = s.set_pan tr (-1) ∧
    (s.set_pan tr 0).2.1.pan_current =
      rustClamp (wrap32 (s.pan_current +
          wrap32 (-(s.get_zoom_adjusted_step s.config.pan.step))))
        s.config.pan.min s.config.pan.max ∧
    s.set_tilt tr 0 = s.set_tilt tr (-1) ∧
    (s.set_tilt tr 0).2.1.tilt_current =
      rustClamp (wrap32 (s.tilt_current +
          wrap32 (-(s.get_zoom_adjusted_step s.config.tilt.step))))
        s.config.tilt.min s.config.tilt.max := by
  have hp : s.panTarget 0 = s.panTarget (-1) := by
    unfold CameraController.panTarget
    norm_num
  have ht : s.tiltTarget 0 = s.tiltTarget (-1) := by
    unfold CameraController.tiltTarget
    norm_num
  refine ⟨?_, ?_, ?_, ?_⟩
  · unfold CameraController.set_pan
    rw [hp]
  · rw [(set_pan_fields s tr 0).2.1]
    unfold CameraController.panTarget
    norm_num
  · unfold CameraController.set_tilt
    rw [ht]
  · rw [(set_tilt_fields s tr 0).2.1]
    unfold CameraController.tiltTarget
    norm_num

/-! ### Claim C4 -/

/-- C4: when the computed clamped position equals the last-sent value, no
transport call is made (the call list is empty), the inner change flag is
`Ok(false)`, and the operation completes with `Ok` leaving the `prev` field
unchanged — for each of the three axes. -/
theorem C4_theorem (s : CameraController) (tr : Transport) (d : ℤ) :
    (s.panTarget d = s.pan_prev →
      CameraController.send_v4l2_command { s with pan_current := s.panTarget d } tr
          "pan_absolute" (s.panTarget d) s.pan_prev = (Except.ok false, []) ∧
      s.set_pan tr d = (Except.ok (), { s with pan_current := s.panTarget d }, [])) ∧
    (s.tiltTarget d = s.tilt_prev →
      CameraController.send_v4l2_command { s with tilt_current := s.tiltTarget d } tr
          "tilt_absolute" (s.tiltTarget d) s.tilt_prev = (Except.ok false, []) ∧
      s.set_tilt tr d = (Except.ok (), { s with tilt_current := s.tiltTarget d }, [])) ∧
    (s.zoomTarget d = s.zoom_prev →
      CameraController.send_v4l2_command { s with zoom_current := s.zoomTarget d } tr
          "zoom_absolute" (s.zoomTarget d) s.zoom_prev = (Except.ok false, []) ∧
      s.set_zoom tr d = (Except.ok (), { s with zoom_current := s.zoomTarget d }, [])) := by
  refine ⟨?_, ?_, ?_⟩
  · intro h
    have hsend : CameraController.send_v4l2_command { s with pan_current := s.panTarget d } tr
        "pan_absolute" (s.panTarget d) s.pan_prev = (Except.ok false, []) := by
      unfold CameraController.send_v4l2_command
      rw [if_pos h.symm]
    exact ⟨hsend, by unfold CameraController.set_pan; rw [hsend]⟩
  · intro h
    have hsend : CameraController.send_v4l2_command { s with tilt_current := s.tiltTarget d } tr
        "tilt_absolute" (s.tiltTarget d) s.tilt_prev = (Except.ok false, []) := by
      unfold CameraController.send_v4l2_command
      rw [if_pos h.symm]
    exact ⟨hsend, by unfold CameraController.set_tilt; rw [hsend]⟩
  · intro h
    have hsend : CameraController.send_v4l2_command { s with zoom_current := s.zoomTarget d } tr
        "zoom_absolute" (s.zoomTarget d) s.zoom_prev = (Except.ok false, []) := by
      unfold CameraController.send_v4l2_command
      rw [if_pos h.symm]
    exact ⟨hsend, by unfold CameraController.set_zoom; rw [hsend]⟩

/-! ### Claim C3 -/

/-- C3: when the computed clamped position differs from the last-sent value, a
transport call is made; on success the operation returns `Ok` and `prev`
(the last-sent value) becomes equal to the new current position; on failure
the operation returns the error (carrying control name, value and diagnostic),
`prev` is unchanged, and the current position keeps the newly clamped value —
for each of the three axes. -/
theorem C3_theorem (s : CameraController) (tr : Transport) (d : ℤ) :
    (s.panTarget d ≠ s.pan_prev →
      (tr s.config.device "pan_absolute" (s.panTarget d) = none →
        s.set_pan tr d =
          (Except.ok (), { s with pan_current := s.panTarget d, pan_prev := s.panTarget d },
            [⟨"pan_absolute", s.panTarget d⟩])) ∧
      (∀ msg, tr s.config.device "pan_absolute" (s.panTarget d) = some msg →
        s.set_pan tr d =
          (Except.error ⟨"pan_absolute", s.panTarget d, msg⟩,
            { s with pan_current := s.panTarget d }, [⟨"pan_absolute", s.panTarget d⟩]))) ∧
    (s.tiltTarget d ≠ s.tilt_prev →
      (tr s.config.device "tilt_absolute" (s.tiltTarget d) = none →
        s.set_tilt tr d =
          (Except.ok (), { s with tilt_current := s.tiltTarget d, tilt_prev := s.tiltTarget d },
            [⟨"tilt_absolute", s.tiltTarget d⟩])) ∧
      (∀ msg, tr s.config.device "tilt_absolute" (s.tiltTarget d) = some msg →
        s.set_tilt tr d =
          (Except.error ⟨"tilt_absolute", s.tiltTarget d, msg⟩,
            { s with tilt_current := s.tiltTarget d }, [⟨"tilt_absolute", s.tiltTarget d⟩]))) ∧
    (s.zoomTarget d ≠ s.zoom_prev →
      (tr s.config.device "zoom_absolute" (s.zoomTarget d) = none →
        s.set_zoom tr d =
          (Except.ok (), { s with zoom_current := s.zoomTarget d, zoom_prev := s.zoomTarget d },
            [⟨"zoom_absolute", s.zoomTarget d⟩])) ∧
      (∀ msg, tr s.config.device "zoom_absolute" (s.zoomTarget d) = some msg →
        s.set_zoom tr d =
          (Except.error ⟨"zoom_absolute", s.zoomTarget d, msg⟩,
            { s with zoom_current := s.zoomTarget d }, [⟨"zoom_absolute", s.zoomTarget d⟩]))) := by
  refine ⟨?_, ?_, ?_⟩
  · intro h
    have hne : ¬(s.pan_prev = s.panTarget d) := fun hc => h hc.symm
    constructor
    · intro htr
      have hsend : CameraController.send_v4l2_command { s with pan_current := s.panTarget d } tr
          "pan_absolute" (s.panTarget d) s.pan_prev =
          (Except.ok true, [⟨"pan_absolute", s.panTarget d⟩]) := by
        unfold CameraController.send_v4l2_command
        rw [if_neg hne]
        dsimp only
        rw [htr]
      unfold CameraController.set_pan
      rw [hsend]
    · intro msg htr
      have hsend : CameraController.send_v4l2_command { s with pan_current := s.panTarget d } tr
          "pan_absolute" (s.panTarget d) s.pan_prev =
          (Except.error ⟨"pan_absolute", s.panTarget d, msg⟩,
            [⟨"pan_absolute", s.panTarget d⟩]) := by
        unfold CameraController.send_v4l2_command
        rw [if_neg hne]
        dsimp only
        rw [htr]
      unfold CameraController.set_pan
      rw [hsend]
  · intro h
    have hne : ¬(s.tilt_prev = s.tiltTarget d) := fun hc => h hc.symm
    constructor
    · intro htr
      have hsend : CameraController.send_v4l2_command { s with tilt_current := s.tiltTarget d } tr
          "tilt_absolute" (s.tiltTarget d) s.tilt_prev =
          (Except.ok true, [⟨"tilt_absolute", s.tiltTarget d⟩]) := by
        unfold CameraController.send_v4l2_command
        rw [if_neg hne]
        dsimp only
        rw [htr]
      unfold CameraController.set_tilt
      rw [hsend]
    · intro msg htr
      have hsend : CameraController.send_v4l2_command { s with tilt_current := s.tiltTarget d } tr
          "tilt_absolute" (s.tiltTarget d) s.tilt_prev =
          (Except.error ⟨"tilt_absolute", s.tiltTarget d, msg⟩,
            [⟨"tilt_absolute", s.tiltTarget d⟩]) := by
        unfold CameraController.send_v4l2_command
        rw [if_neg hne]
        dsimp only
        rw [htr]
      unfold CameraController.set_tilt
      rw [hsend]
  · intro h
    have hne : ¬(s.zoom_prev = s.zoomTarget d) := fun hc => h hc.symm
    constructor
    · intro htr
      have hsend : CameraController.send_v4l2_command { s with zoom_current := s.zoomTarget d } tr
          "zoom_absolute" (s.zoomTarget d) s.zoom_prev =
          (Except.ok true, [⟨"zoom_absolute", s.zoomTarget d⟩]) := by
        unfold CameraController.send_v4l2_command
        rw [if_neg hne]
        dsimp only
        rw [htr]
      unfold CameraController.set_zoom
      rw [hsend]
    · intro msg htr
      have hsend : CameraController.send_v4l2_command { s with zoom_current := s.zoomTarget d } tr
          "zoom_absolute" (s.zoomTarget d) s.zoom_prev =
          (Except.error ⟨"zoom_absolute", s.zoomTarget d, msg⟩,
            [⟨"zoom_absolute", s.zoomTarget d⟩]) := by
        unfold CameraController.send_v4l2_command
        rw [if_neg hne]
        dsimp only
        rw [htr]
      unfold CameraController.set_zoom
      rw [hsend]

/-! ### Claim C5 -/

theorem toggle_fields (a : App) (sp : SpawnResult) :
    (a.toggle_video_feed sp).command_interval = a.command_interval ∧
    (a.toggle_video_feed sp).last_command_time = a.last_command_time ∧
    (a.toggle_video_feed sp).camera_controller = a.camera_controller ∧
    (a.toggle_video_feed sp).should_quit = a.should_quit := by
  unfold App.toggle_video_feed
  split <;> (try split) <;> exact ⟨rfl, rfl, rfl, rfl⟩

theorem update_key_last (a : App) (k : KeyEvent) (now : ℕ) (tr : Transport) (sp : SpawnResult)
    (h : a.command_interval ≤ now - a.last_command_time) :
    (a.update (InputEvent.key k) now tr sp).last_command_time = now := by
  unfold App.update
  dsimp only
  rw [if_pos h]

theorem update_key_throttled (a : App) (k : KeyEvent) (now : ℕ) (tr : Transport)
    (sp : SpawnResult) (h : ¬(a.command_interval ≤ now - a.last_command_time)) :
    a.update (InputEvent.key k) now tr sp = a := by
  unfold App.update
  dsimp only
  rw [if_neg h]

theorem update_key_interval (a : App) (k : KeyEvent) (now : ℕ) (tr : Transport)
    (sp : SpawnResult) (h : a.command_interval ≤ now - a.last_command_time) :
    (a.update (InputEvent.key k) now tr sp).command_interval = a.command_interval := by
  unfold App.update
  dsimp only
  rw [if_pos h]
  rcases k with ⟨code, mods⟩
  cases code <;> cases mods <;> dsimp only <;>
    first
      | (split <;> rfl)
      | simp [(toggle_fields a sp).1]

/-- C5: global rate limiting.  If a key event at time `now1` is accepted
(the gate `now1 - last_command_time ≥ command_interval` passes), then a second
key event arriving at any time `now2` with `now2 - now1 < command_interval` is
dropped: the second `update` call returns the state completely unchanged — no
camera mutation, no status change, no timestamp update.  Hence no two accepted
intents are processed closer together than the interval. -/
theorem C5_theorem (a : App) (k k2 : KeyEvent) (now1 now2 : ℕ) (tr1 tr2 : Transport)
    (sp1 sp2 : SpawnResult)
    (h1 : a.command_interval ≤ now1 - a.last_command_time)
    (h2 : now2 - now1 < a.command_interval) :
    (a.update (InputEvent.key k) now1 tr1 sp1).update (InputEvent.key k2) now2 tr2 sp2 =
      a.update (InputEvent.key k) now1 tr1 sp1 := by
  have hl : (a.update (InputEvent.key k) now1 tr1 sp1).last_command_time = now1 :=
    update_key_last a k now1 tr1 sp1 h1
  have hi : (a.update (InputEvent.key k) now1 tr1 sp1).command_interval = a.command_interval :=
    update_key_interval a k now1 tr1 sp1 h1
  apply update_key_throttled
  rw [hl, hi]
  omega

/-- C5, witness: with the 100 ms interval, a key accepted at t = 100 followed
by a key at t = 150 (50 ms later): the second call leaves the app unchanged. -/
theorem C5_witness :
    ((App.new cfgStd 0).command_interval ≤ 100 - (App.new cfgStd 0).last_command_time) ∧
    (150 - 100 < (App.new cfgStd 0).command_interval) ∧
    (((App.new cfgStd 0).update (InputEvent.key ⟨KeyCode.right, KeyModifiers.plain⟩) 100
        trOkAll SpawnResult.okNoPid).update
      (InputEvent.key ⟨KeyCode.left, KeyModifiers.plain⟩) 150 trOkAll SpawnResult.okNoPid) =
      (App.new cfgStd 0).update (InputEvent.key ⟨KeyCode.right, KeyModifiers.plain⟩) 100
        trOkAll SpawnResult.okNoPid :=
  ⟨by decide, by decide,
    C5_theorem _ _ _ _ _ _ _ _ _ (by decide) (by decide)⟩

/-- A state already at the pan maximum with that value acknowledged: the next
increase computes an unchanged clamped position. -/
def sPanAtMax : CameraController :=
  { CameraController.new cfgStd with pan_current := 100, pan_prev := 100 }

/-- C3, witness: from the fresh standard state, a pan increase computes 5 ≠ 0;
with an always-succeeding transport the theorem yields the success shape
(`pan_prev` advanced to the new position, exactly one transport call). -/
theorem C3_witness :
    (CameraController.new cfgStd).panTarget 10 ≠ (CameraController.new cfgStd).pan_prev ∧
    ((CameraController.new cfgStd).set_pan trOkAll 10).2.1.pan_prev = 5 := by
  have hv : (CameraController.new cfgStd).panTarget 10 = 5 := by with_unfolding_all decide
  have hne : (CameraController.new cfgStd).panTarget 10 ≠
      (CameraController.new cfgStd).pan_prev := by
    rw [hv]
    decide
  refine ⟨hne, ?_⟩
  have happ := ((C3_theorem (CameraController.new cfgStd) trOkAll 10).1 hne).1 rfl
  rw [happ]
  exact hv

/-- C4, witness: at the acknowledged pan maximum, a further increase computes
the same position; the theorem yields `Ok(false)` from the send helper, an
empty call list and an unchanged `pan_prev`. -/
theorem C4_witness :
    sPanAtMax.panTarget 10 = sPanAtMax.pan_prev ∧
    sPanAtMax.set_pan trOkAll 10 =
      (Except.ok (), { sPanAtMax with pan_current := sPanAtMax.panTarget 10 }, []) := by
  have h : sPanAtMax.panTarget 10 = sPanAtMax.pan_prev := by with_unfolding_all decide
  exact ⟨h, ((C4_theorem sPanAtMax trOkAll 10).1 h).2⟩

theorem findExp_unique {q : ℚ} (hq : q ≠ 0) {a : ℤ}
    (h1 : (2 : ℚ) ^ a ≤ |q|) (h2 : |q| < (2 : ℚ) ^ (a + 1)) : findExp q = a := by
  have hfe := findExp_correct hq
  have hx : findExp q < a + 1 :=
    (zpow_lt_zpow_iff_right₀ (by norm_num : (1 : ℚ) < 2)).mp (lt_of_le_of_lt hfe.1 h2)
  have hy : a < findExp q + 1 :=
    (zpow_lt_zpow_iff_right₀ (by norm_num : (1 : ℚ) < 2)).mp (lt_of_le_of_lt h1 hfe.2)
  omega

theorem findExp_mul_pow2 {q : ℚ} (hq : q ≠ 0) (E : ℤ) :
    findExp (q * (2 : ℚ) ^ E) = findExp q + E := by
  have hfe := findExp_correct hq
  have hpe : (0 : ℚ) < (2 : ℚ) ^ E := zpow_pos (by norm_num) _
  have hne : q * (2 : ℚ) ^ E ≠ 0 := mul_ne_zero hq (ne_of_gt hpe)
  have habs : |q * (2 : ℚ) ^ E| = |q| * (2 : ℚ) ^ E := by
    rw [abs_mul, abs_of_pos hpe]
  apply findExp_unique hne
  · rw [habs, zpow_add₀ (two_ne_zero)]
    exact mul_le_mul_of_nonneg_right hfe.1 (le_of_lt hpe)
  · rw [habs, (by ring : findExp q + E + 1 = (findExp q + 1) + E), zpow_add₀ (two_ne_zero)]
    exact mul_lt_mul_of_pos_right hfe.2 hpe

theorem findExp_intCast_bounds {k : ℤ} (h0 : 0 < k) (hk : k < 2 ^ 53) :
    0 ≤ findExp (k : ℚ) ∧ findExp (k : ℚ) ≤ 52 := by
  have hq : (0 : ℚ) < (k : ℚ) := by exact_mod_cast h0
  have hfe := findExp_correct (ne_of_gt hq)
  rw [abs_of_pos hq] at hfe
  constructor
  · by_contra hc
    push_neg at hc
    have h2 : (2 : ℚ) ^ (findExp (k : ℚ) + 1) ≤ (2 : ℚ) ^ (0 : ℤ) :=
      zpow_le_zpow_right₀ (by norm_num) (by omega)
    rw [zpow_zero] at h2
    have h3 : (1 : ℚ) ≤ (k : ℚ) := by exact_mod_cast h0
    linarith [hfe.2]
  · by_contra hc
    push_neg at hc
    have h1 : (2 : ℚ) ^ (53 : ℤ) ≤ (2 : ℚ) ^ findExp (k : ℚ) :=
      zpow_le_zpow_right₀ (by norm_num) (by omega)
    have h3 : (k : ℚ) < (2 : ℚ) ^ (53 : ℤ) := by
      have hcast : ((2 ^ 53 : ℤ) : ℚ) = (2 : ℚ) ^ (53 : ℤ) := by norm_num
      rw [← hcast]
      exact_mod_cast hk
    linarith [hfe.1]

/-- Every dyadic rational with a (positive) 53-bit significand is a fixpoint
of the binary64 rounding. -/
theorem roundQ_dyadic {m E : ℤ} (h0 : 0 < m) (h1 : m < 2 ^ 53) :
    roundQ ((m : ℚ) * (2 : ℚ) ^ E) = (m : ℚ) * (2 : ℚ) ^ E := by
  have hmq : (0 : ℚ) < (m : ℚ) := by exact_mod_cast h0
  have hq : (0 : ℚ) < (m : ℚ) * (2 : ℚ) ^ E := mul_pos hmq (zpow_pos (by norm_num) _)
  obtain ⟨hf0, hf52⟩ := findExp_intCast_bounds h0 h1
  have hfe : findExp ((m : ℚ) * (2 : ℚ) ^ E) = findExp (m : ℚ) + E :=
    findExp_mul_pow2 (ne_of_gt hmq) E
  set fm := findExp (m : ℚ) with hfm
  have hint : (m : ℚ) * (2 : ℚ) ^ E * (2 : ℚ) ^ (52 - (fm + E)) =
      ((m * 2 ^ (52 - fm).toNat : ℤ) : ℚ) := by
    push_cast
    rw [mul_assoc, ← zpow_add₀ (two_ne_zero), ← zpow_natCast (2 : ℚ) (52 - fm).toNat,
      Int.toNat_of_nonneg (by omega : (0 : ℤ) ≤ 52 - fm)]
    congr 1
    congr 1
    ring
  rw [roundQ_pos_rep hq, hfe, hint, rnEven_intCast]
  push_cast
  rw [← zpow_natCast (2 : ℚ) (52 - fm).toNat,
    Int.toNat_of_nonneg (by omega : (0 : ℤ) ≤ 52 - fm), mul_assoc,
    ← zpow_add₀ (two_ne_zero)]
  congr 1
  congr 1
  ring

theorem lit0p9_nonneg : (0 : ℚ) ≤ lit0p9 := by with_unfolding_all decide

theorem lit0p9_le_one : lit0p9 ≤ 1 := by with_unfolding_all decide

theorem lit0p9_val : lit0p9 = ((8106479329266893 : ℤ) : ℚ) * (2 : ℚ) ^ (-53 : ℤ) := by
  unfold lit0p9
  rw [roundQ_pos_rep (by norm_num)]
  have h1 : findExp ((9 : ℚ) / 10) = -1 := by with_unfolding_all decide
  have e1 : (52 : ℤ) - (-1) = 53 := by norm_num
  have e2 : (-1 : ℤ) - 52 = -53 := by norm_num
  rw [h1, e1, e2]
  have h2 : rnEven ((9 / 10 : ℚ) * (2 : ℚ) ^ (53 : ℤ)) = 8106479329266893 := by
    with_unfolding_all decide
  rw [h2]

theorem roundQ_lit0p9 : roundQ lit0p9 = lit0p9 := by
  rw [lit0p9_val]
  exact roundQ_dyadic (by norm_num) (by norm_num)

theorem one_sub_lit0p9_val :
    (1 : ℚ) - lit0p9 = ((900719925474099 : ℤ) : ℚ) * (2 : ℚ) ^ (-53 : ℤ) := by
  rw [lit0p9_val]
  have h : (1 : ℚ) = ((9007199254740992 : ℤ) : ℚ) * (2 : ℚ) ^ (-53 : ℤ) := by
    have h2 : ((9007199254740992 : ℤ) : ℚ) = (2 : ℚ) ^ (53 : ℤ) := by norm_num
    rw [h2, ← zpow_add₀ (two_ne_zero)]
    norm_num
  nth_rewrite 1 [h]
  rw [← sub_mul]
  norm_num

theorem roundQ_one_sub_lit0p9 : roundQ (1 - lit0p9) = 1 - lit0p9 := by
  rw [one_sub_lit0p9_val]
  exact roundQ_dyadic (by norm_num) (by norm_num)

theorem one_sub_lit0p9_frac :
    (1 : ℚ) - lit0p9 = 900719925474099 / 9007199254740992 := by
  rw [one_sub_lit0p9_val, zpow_neg]
  have h2 : (2 : ℚ) ^ (53 : ℤ) = (9007199254740992 : ℚ) := by norm_num
  rw [h2, ← div_eq_mul_inv]
  norm_num

theorem truncQ_intCast (k : ℤ) : truncQ (k : ℚ) = k := by
  unfold truncQ
  split
  · exact Int.floor_intCast k
  · exact Int.ceil_intCast k
/-- Numeric value of `2 ^ 31` on `ℤ` (for `omega`). -/
theorem two31Z : (2 : ℤ) ^ 31 = 2147483648 := by norm_num

/-- Under a valid `i32` zoom configuration and an in-range zoom position,
`get_zoom_adjusted_step` equals the explicit rounding chain: saturating cast
of the rounded product of the base step with the rounded factor
`1 - round(round(normalized) * 0.9)`. -/
theorem gzas_eq (s : CameraController) (base : ℤ)
    (hlt : s.config.zoom.min < s.config.zoom.max)
    (hrange : s.config.zoom.max - s.config.zoom.min < 2 ^ 31)
    (hz0 : s.config.zoom.min ≤ s.zoom_current) (hz1 : s.zoom_current ≤ s.config.zoom.max)
    (hb0 : -(2 ^ 31) ≤ base) (hb1 : base < 2 ^ 31) :
    s.get_zoom_adjusted_step base =
      max (-(2 ^ 31)) (min (2 ^ 31 - 1) (truncQ (roundQ ((base : ℚ) *
        roundQ (1 - roundQ (roundQ
          (((s.zoom_current - s.config.zoom.min : ℤ) : ℚ) /
            ((s.config.zoom.max - s.config.zoom.min : ℤ) : ℚ)) * lit0p9)))))) := by
  have hw1 : wrap32 (s.config.zoom.max - s.config.zoom.min) =
      s.config.zoom.max - s.config.zoom.min := by
    apply wrap32_eq_self <;> rw [two31Z] at * <;> omega
  have hw2 : wrap32 (s.zoom_current - s.config.zoom.min) =
      s.zoom_current - s.config.zoom.min := by
    apply wrap32_eq_self <;> rw [two31Z] at * <;> omega
  have hrq : (0 : ℚ) < ((s.config.zoom.max - s.config.zoom.min : ℤ) : ℚ) := by
    exact_mod_cast sub_pos.mpr hlt
  have hxq0 : (0 : ℚ) ≤ ((s.zoom_current - s.config.zoom.min : ℤ) : ℚ) := by
    exact_mod_cast sub_nonneg.mpr hz0
  have hxr : ((s.zoom_current - s.config.zoom.min : ℤ) : ℚ) ≤
      ((s.config.zoom.max - s.config.zoom.min : ℤ) : ℚ) := by
    exact_mod_cast sub_le_sub_right hz1 s.config.zoom.min
  set xq : ℚ := ((s.zoom_current - s.config.zoom.min : ℤ) : ℚ) with hxq
  set rq : ℚ := ((s.config.zoom.max - s.config.zoom.min : ℤ) : ℚ) with hrq2
  have hdivmem : 0 ≤ xq / rq ∧ xq / rq ≤ 1 :=
    ⟨div_nonneg hxq0 (le_of_lt hrq), div_le_one_of_le hxr (le_of_lt hrq)⟩
  have hn0 : 0 ≤ roundQ (xq / rq) := roundQ_nonneg hdivmem.1
  have hn1 : roundQ (xq / rq) ≤ 1 := by
    calc roundQ (xq / rq) ≤ roundQ 1 := roundQ_mono hdivmem.1 hdivmem.2
    _ = 1 := roundQ_one
  have hg0 : 0 ≤ roundQ (roundQ (xq / rq) * lit0p9) :=
    roundQ_nonneg (mul_nonneg hn0 lit0p9_nonneg)
  have hg1 : roundQ (roundQ (xq / rq) * lit0p9) ≤ 1 := by
    calc roundQ (roundQ (xq / rq) * lit0p9) ≤ roundQ 1 :=
          roundQ_mono (mul_nonneg hn0 lit0p9_nonneg)
            (le_trans (mul_le_mul hn1 lit0p9_le_one lit0p9_nonneg zero_le_one) (by norm_num))
    _ = 1 := roundQ_one
  have hf0 : 0 ≤ roundQ (1 - roundQ (roundQ (xq / rq) * lit0p9)) :=
    roundQ_nonneg (by linarith)
  have hf1 : roundQ (1 - roundQ (roundQ (xq / rq) * lit0p9)) ≤ 1 := by
    calc roundQ (1 - roundQ (roundQ (xq / rq) * lit0p9)) ≤ roundQ 1 :=
          roundQ_mono (by linarith) (by linarith)
    _ = 1 := roundQ_one
  -- evaluate the F64 chain
  have e1 : f64div (F64.fin xq) (F64.fin rq) = F64.fin (roundQ (xq / rq)) := by
    simp only [f64div, if_neg (ne_of_gt hrq)]
    exact mkF64_fin (by rw [abs_of_nonneg hdivmem.1]; linarith [hdivmem.2, (by norm_num : (1:ℚ) ≤ 2 ^ 64)])
  have e2 : f64mul (F64.fin (roundQ (xq / rq))) (F64.fin lit0p9) =
      F64.fin (roundQ (roundQ (xq / rq) * lit0p9)) := by
    simp only [f64mul]
    exact mkF64_fin (by
      rw [abs_of_nonneg (mul_nonneg hn0 lit0p9_nonneg)]
      calc roundQ (xq / rq) * lit0p9 ≤ 1 :=
            le_trans (mul_le_mul hn1 lit0p9_le_one lit0p9_nonneg zero_le_one) (by norm_num)
      _ ≤ 2 ^ 64 := by norm_num)
  have e3 : f64sub (F64.fin 1) (F64.fin (roundQ (roundQ (xq / rq) * lit0p9))) =
      F64.fin (roundQ (1 - roundQ (roundQ (xq / rq) * lit0p9))) := by
    simp only [f64sub]
    exact mkF64_fin (by
      rw [abs_of_nonneg (by linarith)]
      linarith [(by norm_num : (1:ℚ) ≤ 2 ^ 64)])
  have e4 : f64mul (F64.fin ((base : ℤ) : ℚ))
      (F64.fin (roundQ (1 - roundQ (roundQ (xq / rq) * lit0p9)))) =
      F64.fin (roundQ ((base : ℚ) * roundQ (1 - roundQ (roundQ (xq / rq) * lit0p9)))) := by
    simp only [f64mul]
    exact mkF64_fin (by
      rw [abs_mul]
      have hb : |(base : ℚ)| ≤ 2 ^ 31 := by
        rw [abs_le]
        constructor <;> push_cast <;> [exact_mod_cast hb0; exact_mod_cast le_of_lt hb1]
      calc |(base : ℚ)| * |roundQ (1 - roundQ (roundQ (xq / rq) * lit0p9))| ≤
            (2 ^ 31 : ℚ) * 1 := by
            apply mul_le_mul hb _ (abs_nonneg _) (by norm_num)
            rw [abs_of_nonneg hf0]
            exact hf1
      _ ≤ 2 ^ 64 := by norm_num)
  unfold CameraController.get_zoom_adjusted_step
  dsimp only
  rw [hw1, hw2]
  rw [e1, e2, e3, e4]
  rfl
/-- The value of the zoom-adjusted step at maximum zoom: truncating the
rounded product of `b` with the double `1 - 0.9₆₄` gives `b / 10`, except at
positive multiples of 10 where it gives one less. -/
theorem trunc_round_mul_F {b : ℤ} (hb0 : 0 ≤ b) (hb1 : b < 2 ^ 31) :
    truncQ (roundQ ((b : ℚ) * (1 - lit0p9))) =
      if b % 10 = 0 ∧ 0 < b then b / 10 - 1 else b / 10 := by
  rcases eq_or_lt_of_le hb0 with hz | hpos
  · rw [← hz]
    norm_num [roundQ_zero, truncQ, Int.floor_zero]
  · have ht : (1 : ℚ) - lit0p9 = 900719925474099 / 9007199254740992 := one_sub_lit0p9_frac
    have htpos : (0 : ℚ) < 1 - lit0p9 := by rw [ht]; norm_num
    have hbq : (0 : ℚ) < (b : ℚ) := by exact_mod_cast hpos
    set y : ℚ := (b : ℚ) * (1 - lit0p9) with hyd
    have hy0 : 0 < y := mul_pos hbq htpos
    have herr := roundQ_err hy0
    rw [abs_le] at herr
    obtain ⟨herr1, herr2⟩ := herr
    have h53 : ((2 : ℚ) ^ (53 : ℕ)) = 9007199254740992 := by norm_num
    rw [h53] at herr1 herr2
    set n := b / 10 with hn
    set md := b % 10 with hmd
    have hdm : 10 * n + md = b := Int.ediv_add_emod b 10
    have hmd0 : 0 ≤ md := Int.emod_nonneg b (by norm_num)
    have hmd9 : md < 10 := Int.emod_lt_of_pos b (by norm_num)
    have hn0 : 0 ≤ n := Int.ediv_nonneg hb0 (by norm_num)
    have hb1' : b < 2147483648 := by rw [two31Z] at hb1; exact hb1
    have hnB : n ≤ 214748364 := by omega
    have hnQ : (n : ℚ) ≤ 214748364 := by exact_mod_cast hnB
    have hnQ0 : (0 : ℚ) ≤ (n : ℚ) := by exact_mod_cast hn0
    have hmdQ0 : (0 : ℚ) ≤ (md : ℚ) := by exact_mod_cast hmd0
    have hmdQ9 : (md : ℚ) ≤ 9 := by exact_mod_cast (by omega : md ≤ 9)
    have hyval : y = (10 * (n : ℚ) + (md : ℚ)) * (900719925474099 / 9007199254740992) := by
      rw [hyd, ht]
      congr 1
      exact_mod_cast hdm.symm
    have htrunc : truncQ (roundQ y) = Int.floor (roundQ y) :=
      truncQ_of_nonneg (roundQ_nonneg (le_of_lt hy0))
    by_cases hc : md = 0
    · have hnpos : 1 ≤ n := by omega
      have hnQ1 : (1 : ℚ) ≤ (n : ℚ) := by exact_mod_cast hnpos
      have hmdQz : (md : ℚ) = 0 := by exact_mod_cast hc
      rw [hmdQz] at hyval
      have hup : roundQ y < (n : ℚ) := by nlinarith [hyval, herr2, hnQ, hnQ1]
      have hlo : ((n : ℚ) - 1) ≤ roundQ y := by nlinarith [hyval, herr1, hnQ, hnQ1]
      have hfl : Int.floor (roundQ y) = n - 1 := by
        rw [Int.floor_eq_iff]
        constructor
        · push_cast
          linarith
        · push_cast
          linarith
      rw [htrunc, hfl, if_pos ⟨hc, hpos⟩]
    · have hmd1 : 1 ≤ md := by omega
      have hmdQ1 : (1 : ℚ) ≤ (md : ℚ) := by exact_mod_cast hmd1
      have hlo : (n : ℚ) ≤ roundQ y := by nlinarith [hyval, herr1, hnQ, hmdQ1]
      have hup : roundQ y < (n : ℚ) + 1 := by nlinarith [hyval, herr2, hnQ, hmdQ9]
      have hfl : Int.floor (roundQ y) = n := by
        rw [Int.floor_eq_iff]
        constructor
        · exact hlo
        · push_cast
          linarith
      rw [htrunc, hfl, if_neg]
      intro hcc
      exact hc hcc.1

/-! ### Claim C7 -/

/-- C7: `set_pan` with a positive delta (increase) sets `pan_current` to
`clamp(pan_current + zoomAdjustedStep(pan.step))` whenever that sum stays in
the `i32` range; and, concretely, on the specification scenario
(pan `{-100,100,10}`, zoom `{0,100,5}` at `zoomCurrent = 50`) the adjusted
step of 10 is 5 and `movePan(increase)` moves `pan_current` from 0 to 5. -/
theorem C7_theorem :
    (∀ (s : CameraController) (tr : Transport) (d : ℤ),
      0 < d →
      -(2 ^ 31) ≤ s.pan_current + s.get_zoom_adjusted_step s.config.pan.step →
      s.pan_current + s.get_zoom_adjusted_step s.config.pan.step < 2 ^ 31 →
      (s.set_pan tr d).2.1.pan_current =
        rustClamp (s.pan_current + s.get_zoom_adjusted_step s.config.pan.step)
          s.config.pan.min s.config.pan.max) ∧
    (CameraController.new cfgStd).get_zoom_adjusted_step 10 = 5 ∧
    (CameraController.new cfgStd).pan_current = 0 ∧
    ((CameraController.new cfgStd).set_pan trOkAll 10).2.1.pan_current = 5 := by
  refine ⟨?_, ?_, rfl, ?_⟩
  · intro s tr d hd h1 h2
    rw [(set_pan_fields s tr d).2.1]
    unfold CameraController.panTarget
    dsimp only
    rw [if_pos hd, wrap32_eq_self h1 h2]
  · with_unfolding_all decide
  · rw [(set_pan_fields (CameraController.new cfgStd) trOkAll 10).2.1]
    with_unfolding_all decide

/-- C7, witness: the universal part applied to the fresh standard state with
delta 10, hypotheses checked concretely. -/
theorem C7_witness :
    ((0 : ℤ) < 10 ∧
      -(2 ^ 31) ≤ (CameraController.new cfgStd).pan_current +
        (CameraController.new cfgStd).get_zoom_adjusted_step
          (CameraController.new cfgStd).config.pan.step ∧
      (CameraController.new cfgStd).pan_current +
        (CameraController.new cfgStd).get_zoom_adjusted_step
          (CameraController.new cfgStd).config.pan.step < 2 ^ 31) ∧
    ((CameraController.new cfgStd).set_pan trOkAll 10).2.1.pan_current =
      rustClamp ((CameraController.new cfgStd).pan_current +
          (CameraController.new cfgStd).get_zoom_adjusted_step
            (CameraController.new cfgStd).config.pan.step)
        (CameraController.new cfgStd).config.pan.min
        (CameraController.new cfgStd).config.pan.max :=
  ⟨⟨by decide, by with_unfolding_all decide, by with_unfolding_all decide⟩,
    C7_theorem.1 _ trOkAll 10 (by decide) (by with_unfolding_all decide)
      (by with_unfolding_all decide)⟩
/-- Bounds along the factor chain of `get_zoom_adjusted_step`: the rounded
normalized position, the rounded product with 0.9₆₄ and the rounded factor all
lie in [0, 1]. -/
theorem chain_bounds {x r : ℚ} (hx0 : 0 ≤ x) (hxr : x ≤ r) (hr : 0 < r) :
    0 ≤ roundQ (x / r) ∧ roundQ (x / r) ≤ 1 ∧
    0 ≤ roundQ (roundQ (x / r) * lit0p9) ∧ roundQ (roundQ (x / r) * lit0p9) ≤ 1 ∧
    0 ≤ roundQ (1 - roundQ (roundQ (x / r) * lit0p9)) ∧
    roundQ (1 - roundQ (roundQ (x / r) * lit0p9)) ≤ 1 := by
  have hd0 : 0 ≤ x / r := div_nonneg hx0 (le_of_lt hr)
  have hd1 : x / r ≤ 1 := div_le_one_of_le hxr (le_of_lt hr)
  have hn0 : 0 ≤ roundQ (x / r) := roundQ_nonneg hd0
  have hn1 : roundQ (x / r) ≤ 1 := by
    calc roundQ (x / r) ≤ roundQ 1 := roundQ_mono hd0 hd1
    _ = 1 := roundQ_one
  have hm0 : 0 ≤ roundQ (x / r) * lit0p9 := mul_nonneg hn0 lit0p9_nonneg
  have hm1 : roundQ (x / r) * lit0p9 ≤ 1 :=
    le_trans (mul_le_mul hn1 lit0p9_le_one lit0p9_nonneg zero_le_one) (by norm_num)
  have hg0 : 0 ≤ roundQ (roundQ (x / r) * lit0p9) := roundQ_nonneg hm0
  have hg1 : roundQ (roundQ (x / r) * lit0p9) ≤ 1 := by
    calc roundQ (roundQ (x / r) * lit0p9) ≤ roundQ 1 := roundQ_mono hm0 hm1
    _ = 1 := roundQ_one
  have hf0 : 0 ≤ roundQ (1 - roundQ (roundQ (x / r) * lit0p9)) :=
    roundQ_nonneg (by linarith)
  have hf1 : roundQ (1 - roundQ (roundQ (x / r) * lit0p9)) ≤ 1 := by
    calc roundQ (1 - roundQ (roundQ (x / r) * lit0p9)) ≤ roundQ 1 :=
          roundQ_mono (by linarith) (by linarith)
    _ = 1 := roundQ_one
  exact ⟨hn0, hn1, hg0, hg1, hf0, hf1⟩

/-! ### Claim C8 -/

/-- C8: for a fixed valid `i32` zoom configuration and a fixed nonnegative
base step, the zoom-adjusted step is monotonically non-increasing in the zoom
position: raising `zoom_current` within the zoom bounds can only lower (or
keep) the returned step. -/
theorem C8_theorem (s : CameraController) (base z1 z2 : ℤ)
    (hlt : s.config.zoom.min < s.config.zoom.max)
    (hrange : s.config.zoom.max - s.config.zoom.min < 2 ^ 31)
    (hb0 : 0 ≤ base) (hb1 : base < 2 ^ 31)
    (hz1 : s.config.zoom.min ≤ z1) (hz12 : z1 ≤ z2) (hz2 : z2 ≤ s.config.zoom.max) :
    ({ s with zoom_current := z2 } : CameraController).get_zoom_adjusted_step base ≤
      ({ s with zoom_current := z1 } : CameraController).get_zoom_adjusted_step base := by
  have e1 := gzas_eq ({ s with zoom_current := z1 }) base hlt hrange hz1 (le_trans hz12 hz2)
    (by rw [two31Z] at *; omega) hb1
  have e2 := gzas_eq ({ s with zoom_current := z2 }) base hlt hrange (le_trans hz1 hz12) hz2
    (by rw [two31Z] at *; omega) hb1
  rw [e1, e2]
  have hrq : (0 : ℚ) < ((s.config.zoom.max - s.config.zoom.min : ℤ) : ℚ) := by
    exact_mod_cast sub_pos.mpr hlt
  have hx10 : (0 : ℚ) ≤ ((z1 - s.config.zoom.min : ℤ) : ℚ) := by
    exact_mod_cast sub_nonneg.mpr hz1
  have hx1r : ((z1 - s.config.zoom.min : ℤ) : ℚ) ≤
      ((s.config.zoom.max - s.config.zoom.min : ℤ) : ℚ) := by
    exact_mod_cast sub_le_sub_right (le_trans hz12 hz2) s.config.zoom.min
  have hx20 : (0 : ℚ) ≤ ((z2 - s.config.zoom.min : ℤ) : ℚ) := by
    exact_mod_cast sub_nonneg.mpr (le_trans hz1 hz12)
  have hx2r : ((z2 - s.config.zoom.min : ℤ) : ℚ) ≤
      ((s.config.zoom.max - s.config.zoom.min : ℤ) : ℚ) := by
    exact_mod_cast sub_le_sub_right hz2 s.config.zoom.min
  have hx12 : ((z1 - s.config.zoom.min : ℤ) : ℚ) ≤ ((z2 - s.config.zoom.min : ℤ) : ℚ) := by
    exact_mod_cast sub_le_sub_right hz12 s.config.zoom.min
  obtain ⟨hn10, hn11, hg10, hg11, hf10, hf11⟩ := chain_bounds hx10 hx1r hrq
  obtain ⟨hn20, hn21, hg20, hg21, hf20, hf21⟩ := chain_bounds hx20 hx2r hrq
  have hdiv : ((z1 - s.config.zoom.min : ℤ) : ℚ) / ((s.config.zoom.max - s.config.zoom.min : ℤ) : ℚ) ≤
      ((z2 - s.config.zoom.min : ℤ) : ℚ) / ((s.config.zoom.max - s.config.zoom.min : ℤ) : ℚ) :=
    (div_le_div_right hrq).mpr hx12
  have hn : roundQ (((z1 - s.config.zoom.min : ℤ) : ℚ) /
        ((s.config.zoom.max - s.config.zoom.min : ℤ) : ℚ)) ≤
      roundQ (((z2 - s.config.zoom.min : ℤ) : ℚ) /
        ((s.config.zoom.max - s.config.zoom.min : ℤ) : ℚ)) :=
    roundQ_mono (div_nonneg hx10 (le_of_lt hrq)) hdiv
  have hg : roundQ (roundQ (((z1 - s.config.zoom.min : ℤ) : ℚ) /
        ((s.config.zoom.max - s.config.zoom.min : ℤ) : ℚ)) * lit0p9) ≤
      roundQ (roundQ (((z2 - s.config.zoom.min : ℤ) : ℚ) /
        ((s.config.zoom.max - s.config.zoom.min : ℤ) : ℚ)) * lit0p9) :=
    roundQ_mono (mul_nonneg hn10 lit0p9_nonneg)
      (mul_le_mul_of_nonneg_right hn lit0p9_nonneg)
  have hf : roundQ (1 - roundQ (roundQ (((z2 - s.config.zoom.min : ℤ) : ℚ) /
        ((s.config.zoom.max - s.config.zoom.min : ℤ) : ℚ)) * lit0p9)) ≤
      roundQ (1 - roundQ (roundQ (((z1 - s.config.zoom.min : ℤ) : ℚ) /
        ((s.config.zoom.max - s.config.zoom.min : ℤ) : ℚ)) * lit0p9)) :=
    roundQ_mono (by linarith) (by linarith)
  have hbQ : (0 : ℚ) ≤ (base : ℚ) := by exact_mod_cast hb0
  have hprod : (base : ℚ) * roundQ (1 - roundQ (roundQ (((z2 - s.config.zoom.min : ℤ) : ℚ) /
        ((s.config.zoom.max - s.config.zoom.min : ℤ) : ℚ)) * lit0p9)) ≤
      (base : ℚ) * roundQ (1 - roundQ (roundQ (((z1 - s.config.zoom.min : ℤ) : ℚ) /
        ((s.config.zoom.max - s.config.zoom.min : ℤ) : ℚ)) * lit0p9)) :=
    mul_le_mul_of_nonneg_left hf hbQ
  have hround : roundQ ((base : ℚ) * roundQ (1 - roundQ (roundQ
        (((z2 - s.config.zoom.min : ℤ) : ℚ) /
          ((s.config.zoom.max - s.config.zoom.min : ℤ) : ℚ)) * lit0p9))) ≤
      roundQ ((base : ℚ) * roundQ (1 - roundQ (roundQ
        (((z1 - s.config.zoom.min : ℤ) : ℚ) /
          ((s.config.zoom.max - s.config.zoom.min : ℤ) : ℚ)) * lit0p9))) :=
    roundQ_mono (mul_nonneg hbQ hf20) hprod
  exact max_le_max (le_refl _) (min_le_min (le_refl _) (truncQ_mono hround))

/-- C8, witness: on the standard configuration with base 10, the step at full
zoom is at most the step at no zoom. -/
theorem C8_witness :
    ((CameraController.new cfgStd).config.zoom.min <
        (CameraController.new cfgStd).config.zoom.max ∧
      (CameraController.new cfgStd).config.zoom.max -
        (CameraController.new cfgStd).config.zoom.min < 2 ^ 31 ∧
      (0 : ℤ) ≤ 10 ∧ (10 : ℤ) < 2 ^ 31) ∧
    ({ CameraController.new cfgStd with zoom_current := 100 } :
        CameraController).get_zoom_adjusted_step 10 ≤
      ({ CameraController.new cfgStd with zoom_current := 0 } :
        CameraController).get_zoom_adjusted_step 10 :=
  ⟨⟨by decide, by decide, by decide, by decide⟩,
    C8_theorem (CameraController.new cfgStd) 10 0 100 (by decide) (by decide) (by decide)
      (by decide) (by decide) (by decide) (by decide)⟩
/-! ### Claim C2 -/

/-- C2, counterexample: with zoom bounds 0..100 and `zoomCurrent` at the
maximum, the adjusted step of `baseStep = 10` is 0, while the claim's formula
`floor(baseStep * 0.1)` gives 1.  (The binary64 factor at maximum zoom is
`1 - 0.9₆₄ ≈ 0.09999999999999998 < 1/10`, so `10 * factor` truncates to 0.) -/
theorem C2_counterexample :
    cfgStd.zoom.min < cfgStd.zoom.max ∧
    ({ CameraController.new cfgStd with zoom_current := 100 } :
        CameraController).get_zoom_adjusted_step 10 = 0 ∧
    Int.floor ((10 : ℚ) * (1 / 10)) = 1 :=
  ⟨by decide, by with_unfolding_all decide, by with_unfolding_all decide⟩

/-- C2, amended: for every `i32` configuration with `zoom.max > zoom.min` and
every `i32` `baseStep`, the adjusted step at `zoomCurrent = zoom.min` is
exactly `baseStep`; at `zoomCurrent = zoom.max` (for nonnegative `baseStep`)
it is `baseStep / 10` rounded down, except at positive multiples of 10 where
it is `baseStep / 10 - 1` — one less than the `floor(baseStep * 0.1)` the
original claim states. -/
theorem C2_theorem (s : CameraController) (base : ℤ)
    (hlt : s.config.zoom.min < s.config.zoom.max)
    (hrange : s.config.zoom.max - s.config.zoom.min < 2 ^ 31)
    (hb0 : -(2 ^ 31) ≤ base) (hb1 : base < 2 ^ 31) :
    ({ s with zoom_current := s.config.zoom.min } :
        CameraController).get_zoom_adjusted_step base = base ∧
    (0 ≤ base →
      ({ s with zoom_current := s.config.zoom.max } :
          CameraController).get_zoom_adjusted_step base =
        if base % 10 = 0 ∧ 0 < base then base / 10 - 1 else base / 10) := by
  have hround : roundQ ((base : ℤ) : ℚ) = ((base : ℤ) : ℚ) :=
    roundQ_intCast (by rw [abs_lt]; norm_num at hb0 hb1 ⊢; omega)
  constructor
  · have h1 := gzas_eq ({ s with zoom_current := s.config.zoom.min }) base hlt hrange
      (le_refl _) (le_of_lt hlt) hb0 hb1
    rw [h1]
    dsimp only
    rw [sub_self, Int.cast_zero, zero_div, roundQ_zero, zero_mul, roundQ_zero, sub_zero,
      roundQ_one, mul_one, hround, truncQ_intCast, two31Z]
    omega
  · intro hbnn
    have h1 := gzas_eq ({ s with zoom_current := s.config.zoom.max }) base hlt hrange
      (le_of_lt hlt) (le_refl _) hb0 hb1
    rw [h1]
    dsimp only
    have hrq : (0 : ℚ) < ((s.config.zoom.max - s.config.zoom.min : ℤ) : ℚ) := by
      exact_mod_cast sub_pos.mpr hlt
    rw [div_self (ne_of_gt hrq), roundQ_one, one_mul, roundQ_lit0p9,
      roundQ_one_sub_lit0p9, trunc_round_mul_F hbnn hb1, two31Z]
    have hdivB : base / 10 ≤ 214748364 := by
      rw [two31Z] at hb1
      omega
    have hdiv0 : 0 ≤ base / 10 := Int.ediv_nonneg hbnn (by norm_num)
    by_cases hc : base % 10 = 0 ∧ 0 < base
    · rw [if_pos hc]
      have : 10 ≤ base := by
        rcases hc with ⟨hm, hp⟩
        omega
      have h10 : 1 ≤ base / 10 := by omega
      omega
    · rw [if_neg hc]
      omega

/-- C2, witness: the amended theorem at the standard configuration with
`baseStep = 10`: at minimum zoom the adjusted step is exactly 10. -/
theorem C2_witness :
    ((CameraController.new cfgStd).config.zoom.min <
        (CameraController.new cfgStd).config.zoom.max ∧
      (CameraController.new cfgStd).config.zoom.max -
        (CameraController.new cfgStd).config.zoom.min < 2 ^ 31 ∧
      -(2 ^ 31) ≤ (10 : ℤ) ∧ (10 : ℤ) < 2 ^ 31) ∧
    ({ CameraController.new cfgStd with
        zoom_current := (CameraController.new cfgStd).config.zoom.min } :
      CameraController).get_zoom_adjusted_step 10 = 10 :=
  ⟨⟨by decide, by decide, by decide, by decide⟩,
    (C2_theorem (CameraController.new cfgStd) 10 (by decide) (by decide) (by decide)
      (by decide)).1⟩
